import Mathlib

/-!
Verification development for the Kilroy Attractor engine.

The Go sources under internal/attractor and internal/agent are shallowly
embedded as Lean definitions: pure functions become Lean functions, stateful
code becomes explicit state passing, and file-system effects become explicit
state records.  Engine pieces whose implementation files are not part of the
repository snapshot (the retry-gate loop, traversal, fan-in aggregation, the
stall watchdog, the stop command, the preflight probe) are modelled from the
specification text, as marked in the corresponding doc comments.
-/

set_option autoImplicit false

namespace Kilroy

/-! ## Outcome model and failure classes (internal/attractor/runtime) -/

/-- Stage outcome status, from the runtime package:
success, partial_success, retry, fail, skipped. -/
inductive Status where
  | success
  | partialSuccess
  | retry
  | fail
  | skipped
deriving DecidableEq, Repr

/-- The closed failure-class value "transient_infra". -/
def failureClassTransientInfra : String := "transient_infra"

/-- The closed failure-class value "deterministic". -/
def failureClassDeterministic : String := "deterministic"

/-- The closed failure-class value "canceled". -/
def failureClassCanceled : String := "canceled"

/-- Outcome of a single stage attempt.  Only the fields the verified claims
inspect are carried: status, failure reason, and the meta failure_class /
failure_signature entries (absent keys are the empty string). -/
structure Outcome where
  status : Status
  failureReason : String := ""
  failureClass : String := ""
  failureSignature : String := ""
deriving DecidableEq, Repr

/-- Modelled from the spec: the failure-class normalization function
normalizeClass / normalizedFailureClassOrDefault is not among the repository
files in the snapshot.  Per section 4.1, it maps a raw class value into the
closed set, sending empty or unknown values to deterministic (fail-closed). -/
def normalizedFailureClassOrDefault (raw : String) : String :=
  if raw = failureClassTransientInfra then raw
  else if raw = failureClassDeterministic then raw
  else if raw = failureClassCanceled then raw
  else failureClassDeterministic

/-- Embedding of shouldRetryOutcome from the engine package:
not fail and not retry means never retry; otherwise retry exactly when the
normalized failure class is transient_infra. -/
def shouldRetryOutcome (out : Outcome) (failureClass : String) : Bool :=
  if out.status ≠ Status.fail ∧ out.status ≠ Status.retry then false
  else normalizedFailureClassOrDefault failureClass == failureClassTransientInfra

/-! ## Retry gate (spec section 4.3) -/

/-- Progress events emitted by the retry gate. -/
inductive GateEvent where
  | attemptStart (attempt maxAttempt : Nat)
  | retrySleep (attempt : Nat)
  | retryBlocked (attempt : Nat) (failureClass : String)
  | attemptEnd (attempt : Nat)
deriving DecidableEq, Repr

/-- Result of running the retry gate: final outcome, emitted events in order,
and the index of the last attempt that ran. -/
structure GateResult where
  outcome : Outcome
  events : List GateEvent
  lastAttempt : Nat
deriving Repr

/-- Modelled from the spec: the retry-gate loop (executeWithRetry) is not among
the repository files in the snapshot.  Per section 4.3, for each attempt the
gate emits stage_attempt_start, runs the handler, terminates when the status is
not fail or retry or the attempt budget is exhausted, otherwise sleeps and
retries when the class permits it and emits stage_retry_blocked when it does
not; stage_attempt_end is emitted before returning. -/
def gateLoop (handler : Nat → Outcome) (maxAttempt attempt : Nat) : GateResult :=
  if h : ((handler attempt).status ≠ Status.fail ∧ (handler attempt).status ≠ Status.retry) ∨
      maxAttempt ≤ attempt then
    ⟨handler attempt, [GateEvent.attemptStart attempt maxAttempt, GateEvent.attemptEnd attempt],
      attempt⟩
  else
    if shouldRetryOutcome (handler attempt) (handler attempt).failureClass then
      let r := gateLoop handler maxAttempt (attempt + 1)
      ⟨r.outcome, GateEvent.attemptStart attempt maxAttempt :: GateEvent.retrySleep attempt :: r.events,
        r.lastAttempt⟩
    else
      ⟨handler attempt,
        [GateEvent.attemptStart attempt maxAttempt,
         GateEvent.retryBlocked attempt (normalizedFailureClassOrDefault (handler attempt).failureClass),
         GateEvent.attemptEnd attempt], attempt⟩
termination_by maxAttempt - attempt
decreasing_by
  simp only [not_or, not_and, not_le] at h
  omega

/-- Running the retry gate from the first attempt. -/
def retryGate (handler : Nat → Outcome) (maxAttempt : Nat) : GateResult :=
  gateLoop handler maxAttempt 1

/-- The last attempt index reported by the gate is at least the starting one. -/
theorem gateLoop_le_lastAttempt (handler : Nat → Outcome) (maxAttempt attempt : Nat) :
    attempt ≤ (gateLoop handler maxAttempt attempt).lastAttempt := by
  induction attempt using gateLoop.induct handler maxAttempt with
  | case1 attempt h =>
      rw [gateLoop, dif_pos h]
  | case2 attempt h hr ih =>
      rw [gateLoop, dif_neg h, if_pos hr]
      exact Nat.le_trans (Nat.le_succ attempt) ih
  | case3 attempt h hr =>
      rw [gateLoop, dif_neg h, if_neg hr]

/-- C1. Retry gate contract: shouldRetryOutcome permits a retry exactly when the
status is fail or retry and the normalized class is transient_infra; a fail
outcome with deterministic or canceled class is attempted exactly once with a
stage_retry_blocked event (given remaining budget) and no stage_retry_sleep
event, while a transient_infra fail with remaining budget produces a
stage_retry_sleep event followed by a further attempt. -/
theorem retry_gate_contract :
    (∀ (out : Outcome) (c : String),
      shouldRetryOutcome out c = true ↔
        ((out.status = Status.fail ∨ out.status = Status.retry) ∧
          normalizedFailureClassOrDefault c = failureClassTransientInfra)) ∧
    (∀ (handler : Nat → Outcome) (maxAttempt : Nat),
      (handler 1).status = Status.fail →
      (normalizedFailureClassOrDefault (handler 1).failureClass = failureClassDeterministic ∨
        normalizedFailureClassOrDefault (handler 1).failureClass = failureClassCanceled) →
      (retryGate handler maxAttempt).lastAttempt = 1 ∧
        (∀ a, GateEvent.retrySleep a ∉ (retryGate handler maxAttempt).events) ∧
        (1 < maxAttempt →
          GateEvent.retryBlocked 1 (normalizedFailureClassOrDefault (handler 1).failureClass) ∈
            (retryGate handler maxAttempt).events)) ∧
    (∀ (handler : Nat → Outcome) (maxAttempt : Nat),
      (handler 1).status = Status.fail →
      normalizedFailureClassOrDefault (handler 1).failureClass = failureClassTransientInfra →
      1 < maxAttempt →
      GateEvent.retrySleep 1 ∈ (retryGate handler maxAttempt).events ∧
        2 ≤ (retryGate handler maxAttempt).lastAttempt) := by
  refine ⟨?_, ?_, ?_⟩
  · intro out c
    unfold shouldRetryOutcome
    by_cases hs : out.status ≠ Status.fail ∧ out.status ≠ Status.retry
    · rw [if_pos hs]
      simp only [Bool.false_eq_true, false_iff]
      rintro ⟨h1 | h1, -⟩
      · exact hs.1 h1
      · exact hs.2 h1
    · rw [if_neg hs]
      push_neg at hs
      simp only [beq_iff_eq]
      constructor
      · intro h
        refine ⟨?_, h⟩
        by_cases hf : out.status = Status.fail
        · exact Or.inl hf
        · exact Or.inr (hs hf)
      · exact fun h => h.2
  · intro handler maxAttempt hfail hclass
    have hncl : normalizedFailureClassOrDefault (handler 1).failureClass ≠
        failureClassTransientInfra := by
      rcases hclass with h | h <;> rw [h] <;> decide
    have hsr : shouldRetryOutcome (handler 1) (handler 1).failureClass = false := by
      simp [shouldRetryOutcome, hfail, hncl]
    rw [retryGate, gateLoop]
    by_cases hb : maxAttempt ≤ 1
    · rw [dif_pos (Or.inr hb)]
      refine ⟨rfl, ?_, ?_⟩
      · intro a
        simp
      · intro hlt
        omega
    · have hcond : ¬(((handler 1).status ≠ Status.fail ∧ (handler 1).status ≠ Status.retry) ∨
          maxAttempt ≤ 1) := by
        push_neg
        exact ⟨fun hne => absurd hfail hne, by omega⟩
      rw [dif_neg hcond, if_neg (by rw [hsr]; simp)]
      refine ⟨rfl, ?_, ?_⟩
      · intro a
        simp
      · intro _
        simp
  · intro handler maxAttempt hfail htrans hlt
    have hsr : shouldRetryOutcome (handler 1) (handler 1).failureClass = true := by
      simp [shouldRetryOutcome, hfail, htrans]
    have hcond : ¬(((handler 1).status ≠ Status.fail ∧ (handler 1).status ≠ Status.retry) ∨
        maxAttempt ≤ 1) := by
      push_neg
      exact ⟨fun hne => absurd hfail hne, hlt⟩
    rw [retryGate, gateLoop, dif_neg hcond, if_pos hsr]
    refine ⟨?_, ?_⟩
    · simp
    · have := gateLoop_le_lastAttempt handler maxAttempt 2
      simpa using this

/-- Closed witness for C1: concrete handlers exercise the deterministic and
transient branches of the retry gate contract. -/
theorem retry_gate_contract_witness :
    ((fun _ : Nat => Outcome.mk Status.fail "boom" "deterministic" "") 1).status = Status.fail ∧
    (retryGate (fun _ => Outcome.mk Status.fail "boom" "deterministic" "") 4).lastAttempt = 1 ∧
    GateEvent.retrySleep 1 ∈
      (retryGate (fun n => if n = 1 then Outcome.mk Status.fail "net" "transient_infra" ""
        else Outcome.mk Status.success "" "" "") 4).events := by
  refine ⟨by decide, ?_, ?_⟩
  · exact (retry_gate_contract.2.1 (fun _ => Outcome.mk Status.fail "boom" "deterministic" "") 4
      (by decide) (Or.inl (by decide))).1
  · exact (retry_gate_contract.2.2 (fun n => if n = 1 then Outcome.mk Status.fail "net" "transient_infra" ""
      else Outcome.mk Status.success "" "" "") 4 (by decide) (by decide) (by decide)).1

/-! ## Preflight API prompt probe (spec section 4.8, item 5) -/

/-- Reply of one backend complete call made by the preflight probe. -/
inductive ProbeReply where
  | ok (text : String)
  | transientErr (msg : String)
  | invalidRequestErr (msg : String)
deriving DecidableEq, Repr

/-- Whether a reply is a transient error (request timeout, connection reset,
and similar), the only error kind the probe retries. -/
def replyTransient : ProbeReply → Bool
  | ProbeReply.transientErr _ => true
  | _ => false

/-- Modelled from the spec: runProviderAPIPromptProbe is not among the
repository files in the snapshot.  Per section 4.8 item 5, the probe makes a
lightweight complete call, retried with backoff on transient errors up to the
configured retry count and not retried on invalid-request errors.  The backend
is scripted by call index; the result carries the probe text or the error
message together with the number of calls made. -/
def probeLoop (backend : Nat → ProbeReply) (retries attempt : Nat) :
    Except String String × Nat :=
  match backend attempt with
  | ProbeReply.ok t => (Except.ok t, attempt + 1)
  | ProbeReply.transientErr m =>
      if attempt < retries then probeLoop backend retries (attempt + 1)
      else (Except.error m, attempt + 1)
  | ProbeReply.invalidRequestErr m => (Except.error m, attempt + 1)
termination_by retries - attempt

/-- Running the probe from the first call. -/
def runProviderAPIPromptProbe (backend : Nat → ProbeReply) (retries : Nat) :
    Except String String × Nat :=
  probeLoop backend retries 0

/-- Transient replies strictly before call k keep the probe looping. -/
theorem probeLoop_ok_of_transient (backend : Nat → ProbeReply) (retries k : Nat) (t : String)
    (ht : ∀ i, i < k → replyTransient (backend i) = true)
    (hk : backend k = ProbeReply.ok t) (hr : k ≤ retries) :
    ∀ a, a ≤ k → probeLoop backend retries a = (Except.ok t, k + 1) := by
  intro a ha
  have H : ∀ n a, a ≤ k → k - a = n → probeLoop backend retries a = (Except.ok t, k + 1) := by
    intro n
    induction n with
    | zero =>
        intro a ha hn
        have hak : a = k := by omega
        subst hak
        rw [probeLoop, hk]
    | succ n ih =>
        intro a ha hn
        have hak : a < k := by omega
        obtain ⟨m, hm⟩ : ∃ m, backend a = ProbeReply.transientErr m := by
          have := ht a hak
          cases hb : backend a <;> rw [hb] at this <;> simp [replyTransient] at this
          exact ⟨_, rfl⟩
        rw [probeLoop, hm]
        have hlt : a < retries := by omega
        dsimp only
        rw [if_pos hlt]
        exact ih (a + 1) (by omega) (by omega)
  exact H (k - a) a ha rfl

/-- C7. Preflight API prompt probe retry policy: after transient errors the
probe retries the complete call up to the configured retry count and returns
the probe text of a later successful attempt; an invalid-request error is not
retried, so exactly one call is made and the probe returns that error. -/
theorem api_prompt_probe_retry_policy :
    (∀ (backend : Nat → ProbeReply) (retries k : Nat) (t : String),
      (∀ i, i < k → replyTransient (backend i) = true) →
      backend k = ProbeReply.ok t → k ≤ retries →
      runProviderAPIPromptProbe backend retries = (Except.ok t, k + 1)) ∧
    (∀ (backend : Nat → ProbeReply) (retries : Nat) (m : String),
      backend 0 = ProbeReply.invalidRequestErr m →
      runProviderAPIPromptProbe backend retries = (Except.error m, 1)) := by
  constructor
  · intro backend retries k t ht hk hr
    exact probeLoop_ok_of_transient backend retries k t ht hk hr 0 (Nat.zero_le k)
  · intro backend retries m hm
    rw [runProviderAPIPromptProbe, probeLoop, hm]

/-- Closed witness for C7: one request timeout then success yields the probe
text in two calls; an immediate invalid-request error makes exactly one call. -/
theorem api_prompt_probe_retry_policy_witness :
    runProviderAPIPromptProbe
      (fun n => if n = 0 then ProbeReply.transientErr "context deadline exceeded"
        else ProbeReply.ok "OK") 2 = (Except.ok "OK", 2) ∧
    runProviderAPIPromptProbe (fun _ => ProbeReply.invalidRequestErr "invalid_request_error") 3 =
      (Except.error "invalid_request_error", 1) := by
  constructor
  · exact api_prompt_probe_retry_policy.1
      (fun n => if n = 0 then ProbeReply.transientErr "context deadline exceeded"
        else ProbeReply.ok "OK") 2 1 "OK" (by decide) (by decide) (by decide)
  · exact api_prompt_probe_retry_policy.2
      (fun _ => ProbeReply.invalidRequestErr "invalid_request_error") 3 "invalid_request_error" rfl

/-! ## String helpers shared by the embeddings -/

/-- Whitespace predicate used by the embedding of strings.TrimSpace. -/
def isSpaceChar (c : Char) : Bool :=
  c = ' ' ∨ c = '\t' ∨ c = '\n' ∨ c = '\r' ∨ c = '\x0b' ∨ c = '\x0c'

/-- Dropping leading whitespace characters. -/
def dropLeadingWs : List Char → List Char
  | [] => []
  | c :: rest => if isSpaceChar c then dropLeadingWs rest else c :: rest

/-- Embedding of strings.TrimSpace: whitespace removed from both ends. -/
def trimSpace (s : String) : String :=
  String.mk ((dropLeadingWs (dropLeadingWs s.data).reverse).reverse)

/-! ## Progress artifacts (internal/attractor/engine/progress.go) -/

/-- A progress event: a JSON object modelled as an association list from keys
to string values (only key presence and value identity matter here). -/
abbrev Event : Type := List (String × String)

/-- Looking up a key in an event (first binding wins, as for a JSON object). -/
def evGet (ev : Event) (k : String) : Option String :=
  (ev.find? (fun p => p.1 == k)).map (fun p => p.2)

/-- Key-presence test used by the ts / run_id stamping in appendProgress. -/
def evHasKey (ev : Event) (k : String) : Bool :=
  (evGet ev k).isSome

/-- The two progress artifacts under the logs root: progress.ndjson as the list
of its JSON lines and live.json as the last written event, if any. -/
structure ProgressFiles where
  ndjson : List Event
  live : Option Event
deriving Repr

/-- Stamping from appendProgress: set ts to the current time when the key is
absent, then set run_id to the engine run id when the key is absent and the
trimmed run id is nonempty. -/
def stampEvent (ev : Event) (runID now : String) : Event :=
  let ev1 := if evHasKey ev "ts" then ev else ev ++ [("ts", now)]
  if evHasKey ev1 "run_id" = false ∧ trimSpace runID ≠ "" then ev1 ++ [("run_id", runID)] else ev1

/-- Embedding of appendProgress: with an empty trimmed logs root no file is
touched; otherwise the stamped event is appended as one line to
progress.ndjson and live.json is overwritten with that same event.  The
in-memory sink and the marshalling step (which cannot fail for these events)
are outside the file-state model. -/
def appendProgress (logsRoot runID now : String) (st : ProgressFiles) (ev : Event) :
    ProgressFiles :=
  let stamped := stampEvent ev runID now
  if trimSpace logsRoot = "" then st
  else ⟨st.ndjson ++ [stamped], some stamped⟩

/-- Appending a sequence of events in emission order. -/
def appendProgressAll (logsRoot runID now : String) (st : ProgressFiles) (evs : List Event) :
    ProgressFiles :=
  evs.foldl (appendProgress logsRoot runID now) st

/-- Lookup over an appended event falls through to the suffix exactly when the
first part has no binding for the key. -/
theorem evGet_append (ev extra : Event) (k : String) :
    evGet (ev ++ extra) k = if (evGet ev k).isSome then evGet ev k else evGet extra k := by
  unfold evGet
  induction ev with
  | nil => simp
  | cons p rest ih =>
      by_cases hp : p.1 == k
      · simp [List.find?, hp]
      · simp only [List.cons_append, List.find?, hp] at ih ⊢
        exact ih

/-- Lookup of a key already present is unchanged by appending bindings. -/
theorem evGet_append_of_isSome (ev extra : Event) (k : String)
    (h : (evGet ev k).isSome) : evGet (ev ++ extra) k = evGet ev k := by
  rw [evGet_append, if_pos h]

/-- The ndjson stream after a fold is the original lines followed by the
stamped events in order. -/
theorem appendProgressAll_ndjson (logsRoot runID now : String)
    (h : trimSpace logsRoot ≠ "") :
    ∀ (evs : List Event) (st : ProgressFiles),
      (appendProgressAll logsRoot runID now st evs).ndjson =
        st.ndjson ++ evs.map (fun e => stampEvent e runID now) := by
  intro evs
  induction evs with
  | nil => intro st; simp [appendProgressAll]
  | cons e rest ih =>
      intro st
      show (appendProgressAll logsRoot runID now (appendProgress logsRoot runID now st e) rest).ndjson = _
      rw [ih, appendProgress]
      simp [if_neg h]

/-- C5. Progress artifact invariant: with a nonempty logs root each call
appends exactly one stamped line to progress.ndjson leaving previous lines
intact and overwrites live.json with that same event; the stamp adds ts and
run_id only when absent and never alters existing keys; hence after a
sequence of events the stream holds all stamped events in emission order and
live.json equals the most recent one. -/
theorem append_progress_invariant (logsRoot runID now : String)
    (h : trimSpace logsRoot ≠ "") :
    (∀ (st : ProgressFiles) (ev : Event),
      (appendProgress logsRoot runID now st ev).ndjson =
          st.ndjson ++ [stampEvent ev runID now] ∧
        (appendProgress logsRoot runID now st ev).live = some (stampEvent ev runID now)) ∧
    (∀ (ev : Event) (k : String), (evGet ev k).isSome →
      evGet (stampEvent ev runID now) k = evGet ev k) ∧
    (∀ ev : Event, evHasKey (stampEvent ev runID now) "ts" = true) ∧
    (∀ (st : ProgressFiles) (evs : List Event),
      (appendProgressAll logsRoot runID now st evs).ndjson =
        st.ndjson ++ evs.map (fun e => stampEvent e runID now)) ∧
    (∀ (st : ProgressFiles) (evs : List Event) (e : Event),
      (appendProgressAll logsRoot runID now st (evs ++ [e])).live =
        some (stampEvent e runID now)) := by
  refine ⟨?_, ?_, ?_, ?_, ?_⟩
  · intro st ev
    rw [appendProgress]
    simp [if_neg h]
  · intro ev k hk
    unfold stampEvent
    have hev1 : ∀ ev1 : Event, evGet ev1 k = evGet ev k → (evGet ev1 k).isSome →
        evGet (if evHasKey ev1 "run_id" = false ∧ trimSpace runID ≠ ""
          then ev1 ++ [("run_id", runID)] else ev1) k = evGet ev k := by
      intro ev1 h1 hs1
      by_cases hrid : evHasKey ev1 "run_id" = false ∧ trimSpace runID ≠ ""
      · rw [if_pos hrid, evGet_append_of_isSome ev1 _ k hs1, h1]
      · rw [if_neg hrid, h1]
    by_cases hts : evHasKey ev "ts"
    · rw [if_pos hts]
      exact hev1 ev rfl hk
    · rw [if_neg hts]
      have h1 : evGet (ev ++ [("ts", now)]) k = evGet ev k :=
        evGet_append_of_isSome ev _ k hk
      exact hev1 _ h1 (h1 ▸ hk)
  · intro ev
    unfold stampEvent evHasKey
    have hev1 : ∀ ev1 : Event, (evGet ev1 "ts").isSome →
        (evGet (if (evGet ev1 "run_id").isSome = false ∧ trimSpace runID ≠ ""
          then ev1 ++ [("run_id", runID)] else ev1) "ts").isSome = true := by
      intro ev1 hs1
      by_cases hrid : (evGet ev1 "run_id").isSome = false ∧ trimSpace runID ≠ ""
      · rw [if_pos hrid, evGet_append_of_isSome ev1 _ "ts" hs1]
        exact hs1
      · rw [if_neg hrid]
        exact hs1
    by_cases hts : (evGet ev "ts").isSome = true
    · rw [if_pos hts]
      exact hev1 ev hts
    · rw [if_neg hts]
      refine hev1 _ ?_
      rw [evGet_append]
      rw [if_neg hts]
      simp [evGet, List.find?]
  · intro st evs
    exact appendProgressAll_ndjson logsRoot runID now h evs st
  · intro st evs e
    unfold appendProgressAll
    rw [List.foldl_append]
    show (appendProgress logsRoot runID now _ e).live = _
    rw [appendProgress]
    simp [if_neg h]

/-- Closed witness for C5: two concrete events written under a concrete logs
root land in order in progress.ndjson and the second one is the live view. -/
theorem append_progress_invariant_witness :
    trimSpace "/logs" ≠ "" ∧
    (appendProgressAll "/logs" "r1" "t0" ⟨[], none⟩
        [[("event", "first")], [("event", "second")]]).ndjson =
      [stampEvent [("event", "first")] "r1" "t0", stampEvent [("event", "second")] "r1" "t0"] ∧
    (appendProgressAll "/logs" "r1" "t0" ⟨[], none⟩
        [[("event", "first")], [("event", "second")]]).live =
      some (stampEvent [("event", "second")] "r1" "t0") := by
  have hroot : trimSpace "/logs" ≠ "" := by decide
  refine ⟨hroot, ?_, ?_⟩
  · have := (append_progress_invariant "/logs" "r1" "t0" hroot).2.2.2.1 ⟨[], none⟩
      [[("event", "first")], [("event", "second")]]
    simpa using this
  · have := (append_progress_invariant "/logs" "r1" "t0" hroot).2.2.2.2 ⟨[], none⟩
      [[("event", "first")]] [("event", "second")]
    simpa using this

/-! ## Substring scanning (embedding of the strings package operations used by
EditFile in internal/agent/env_local.go) -/

/-- First index at which pat occurs as a contiguous substring, scanning left to
right; the empty pattern matches at index 0 (strings.Index). -/
def indexOfSub (pat : List Char) : List Char → Option Nat
  | [] => if pat.isPrefixOf [] then some 0 else none
  | c :: t =>
      if pat.isPrefixOf (c :: t) then some 0
      else (indexOfSub pat t).map (fun i => i + 1)

/-- Substring test (strings.Contains). -/
def containsSub (pat s : List Char) : Bool :=
  (indexOfSub pat s).isSome

/-- A found index carries a decomposition of the scanned list. -/
theorem indexOfSub_decomp (pat : List Char) :
    ∀ (s : List Char) (i : Nat), indexOfSub pat s = some i →
      s = s.take i ++ pat ++ s.drop (i + pat.length) ∧ i + pat.length ≤ s.length := by
  intro s
  induction s with
  | nil =>
      intro i h
      rw [indexOfSub] at h
      by_cases hp : pat.isPrefixOf ([] : List Char)
      · rw [if_pos hp] at h
        cases h
        have : pat = [] := List.eq_nil_of_prefix_nil (List.isPrefixOf_iff_prefix.mp hp)
        subst this
        simp
      · rw [if_neg hp] at h
        cases h
  | cons c t ih =>
      intro i h
      rw [indexOfSub] at h
      by_cases hp : pat.isPrefixOf (c :: t)
      · rw [if_pos hp] at h
        cases h
        obtain ⟨rest, hrest⟩ := List.isPrefixOf_iff_prefix.mp hp
        refine ⟨?_, ?_⟩
        · rw [← hrest]
          simp [List.drop_left]
        · rw [← hrest]
          simp
      · rw [if_neg hp] at h
        cases hi : indexOfSub pat t with
        | none => rw [hi] at h; cases h
        | some j =>
            rw [hi] at h
            simp only [Option.map_some'] at h
            cases h
            obtain ⟨hdec, hlen⟩ := ih j hi
            constructor
            · show c :: t = (c :: t).take (j + 1) ++ pat ++ (c :: t).drop (j + 1 + pat.length)
              simp only [List.take_succ_cons, List.drop_succ_cons]
              conv_lhs => rw [hdec]
              simp [Nat.add_right_comm j 1 pat.length]
            · simp only [List.length_cons]
              omega

/-- A failed scan means no suffix of the list starts with the pattern. -/
theorem indexOfSub_none (pat : List Char) :
    ∀ s : List Char, indexOfSub pat s = none → ∀ j, ¬ pat <+: s.drop j := by
  intro s
  induction s with
  | nil =>
      intro h j hpre
      rw [indexOfSub] at h
      have hpat : pat = [] := List.eq_nil_of_prefix_nil (by simpa using hpre)
      rw [hpat] at h
      simp [List.isPrefixOf] at h
  | cons c t ih =>
      intro h j hpre
      rw [indexOfSub] at h
      by_cases hp : pat.isPrefixOf (c :: t)
      · rw [if_pos hp] at h
        cases h
      · rw [if_neg hp] at h
        cases j with
        | zero =>
            exact hp (List.isPrefixOf_iff_prefix.mpr (by simpa using hpre))
        | succ m =>
            have ht : indexOfSub pat t = none := by
              cases hi : indexOfSub pat t with
              | none => rfl
              | some k => rw [hi] at h; cases h
            exact ih ht m (by simpa using hpre)

/-- The scan returns the first matching index. -/
theorem indexOfSub_minimal (pat : List Char) :
    ∀ (s : List Char) (i : Nat), indexOfSub pat s = some i →
      ∀ j, j < i → ¬ pat <+: s.drop j := by
  intro s
  induction s with
  | nil =>
      intro i h j hj hpre
      rw [indexOfSub] at h
      by_cases hp : pat.isPrefixOf ([] : List Char)
      · rw [if_pos hp] at h
        cases h
        omega
      · rw [if_neg hp] at h
        cases h
  | cons c t ih =>
      intro i h j hj hpre
      rw [indexOfSub] at h
      by_cases hp : pat.isPrefixOf (c :: t)
      · rw [if_pos hp] at h
        cases h
        omega
      · rw [if_neg hp] at h
        cases hi : indexOfSub pat t with
        | none => rw [hi] at h; cases h
        | some k =>
            rw [hi] at h
            simp only [Option.map_some'] at h
            cases h
            cases j with
            | zero =>
                exact hp (List.isPrefixOf_iff_prefix.mpr (by simpa using hpre))
            | succ m =>
                exact ih k hi m (by omega) (by simpa using hpre)

/-- A found index yields an occurrence: the pattern heads the suffix there. -/
theorem indexOfSub_isPrefix_drop (pat s : List Char) (i : Nat)
    (h : indexOfSub pat s = some i) : pat <+: s.drop i := by
  obtain ⟨hdec, hlen⟩ := indexOfSub_decomp pat s i h
  have hi : i ≤ s.length := by omega
  have : s.drop i = pat ++ s.drop (i + pat.length) := by
    conv_lhs => rw [hdec]
    rw [List.drop_append_of_le_length (by simp [List.length_take]; omega)]
    simp [List.length_take, Nat.min_eq_left hi]
  exact ⟨s.drop (i + pat.length), this.symm⟩

/-- Number of non-overlapping occurrences, scanning left to right
(strings.Count; the empty pattern counts one more than the length). -/
def countSub (pat s : List Char) : Nat :=
  if hpat : pat = [] then s.length + 1
  else
    match hidx : indexOfSub pat s with
    | none => 0
    | some i => 1 + countSub pat (s.drop (i + pat.length))
termination_by s.length
decreasing_by
  have hb := (indexOfSub_decomp pat s i hidx).2
  have hl : 0 < pat.length := List.length_pos.mpr hpat
  simp only [List.length_drop]
  omega

/-- Segments of the scan between non-overlapping occurrences of the pattern. -/
def splitSub (pat s : List Char) : List (List Char) :=
  if hpat : pat = [] then [s]
  else
    match hidx : indexOfSub pat s with
    | none => [s]
    | some i => s.take i :: splitSub pat (s.drop (i + pat.length))
termination_by s.length
decreasing_by
  have hb := (indexOfSub_decomp pat s i hidx).2
  have hl : 0 < pat.length := List.length_pos.mpr hpat
  simp only [List.length_drop]
  omega

/-- Replacement of every non-overlapping occurrence (strings.ReplaceAll; the
empty pattern inserts the replacement before every rune and at the end). -/
def replaceAllSub (pat rep s : List Char) : List Char :=
  if hpat : pat = [] then rep ++ (s.map (fun c => c :: rep)).flatten
  else
    match hidx : indexOfSub pat s with
    | none => s
    | some i => s.take i ++ rep ++ replaceAllSub pat rep (s.drop (i + pat.length))
termination_by s.length
decreasing_by
  have hb := (indexOfSub_decomp pat s i hidx).2
  have hl : 0 < pat.length := List.length_pos.mpr hpat
  simp only [List.length_drop]
  omega

/-- Replacement of the first occurrence only (strings.Replace with n = 1). -/
def replaceOnceSub (pat rep s : List Char) : List Char :=
  match indexOfSub pat s with
  | none => s
  | some i => s.take i ++ rep ++ s.drop (i + pat.length)

/-- Joining segments with a separator, the inverse of splitSub. -/
def joinWith (sep : List Char) : List (List Char) → List Char
  | [] => []
  | [x] => x
  | x :: y :: xs => x ++ sep ++ joinWith sep (y :: xs)

/-- A nonempty pattern never matches inside the empty list. -/
theorem indexOfSub_nil (pat : List Char) (hpat : pat ≠ []) :
    indexOfSub pat [] = none := by
  rw [indexOfSub]
  cases pat with
  | nil => exact absurd rfl hpat
  | cons c t => rfl

/-- Unfolding splitSub when the scan finds nothing. -/
theorem splitSub_eq_of_none (pat s : List Char) (h : indexOfSub pat s = none) :
    splitSub pat s = [s] := by
  rw [splitSub]
  by_cases hpat : pat = []
  · rw [dif_pos hpat]
  · rw [dif_neg hpat]
    split
    · rfl
    · next i heq => rw [h] at heq; cases heq

/-- Unfolding splitSub at a found occurrence. -/
theorem splitSub_eq_of_some (pat s : List Char) (i : Nat) (hpat : pat ≠ [])
    (h : indexOfSub pat s = some i) :
    splitSub pat s = s.take i :: splitSub pat (s.drop (i + pat.length)) := by
  rw [splitSub, dif_neg hpat]
  split
  · next heq => rw [h] at heq; cases heq
  · next j heq =>
      rw [h] at heq
      cases heq
      rfl

/-- Unfolding countSub when the scan finds nothing. -/
theorem countSub_eq_of_none (pat s : List Char) (hpat : pat ≠ [])
    (h : indexOfSub pat s = none) : countSub pat s = 0 := by
  rw [countSub, dif_neg hpat]
  split
  · rfl
  · next i heq => rw [h] at heq; cases heq

/-- Unfolding countSub at a found occurrence. -/
theorem countSub_eq_of_some (pat s : List Char) (i : Nat) (hpat : pat ≠ [])
    (h : indexOfSub pat s = some i) :
    countSub pat s = 1 + countSub pat (s.drop (i + pat.length)) := by
  rw [countSub, dif_neg hpat]
  split
  · next heq => rw [h] at heq; cases heq
  · next j heq =>
      rw [h] at heq
      cases heq
      rfl

/-- Unfolding replaceAllSub when the scan finds nothing. -/
theorem replaceAllSub_eq_of_none (pat rep s : List Char) (hpat : pat ≠ [])
    (h : indexOfSub pat s = none) : replaceAllSub pat rep s = s := by
  rw [replaceAllSub, dif_neg hpat]
  split
  · rfl
  · next i heq => rw [h] at heq; cases heq

/-- Unfolding replaceAllSub at a found occurrence. -/
theorem replaceAllSub_eq_of_some (pat rep s : List Char) (i : Nat) (hpat : pat ≠ [])
    (h : indexOfSub pat s = some i) :
    replaceAllSub pat rep s =
      s.take i ++ rep ++ replaceAllSub pat rep (s.drop (i + pat.length)) := by
  rw [replaceAllSub, dif_neg hpat]
  split
  · next heq => rw [h] at heq; cases heq
  · next j heq =>
      rw [h] at heq
      cases heq
      rfl

/-- splitSub always produces at least one segment. -/
theorem splitSub_ne_nil (pat s : List Char) : splitSub pat s ≠ [] := by
  rw [splitSub]
  by_cases hpat : pat = []
  · rw [dif_pos hpat]
    exact List.cons_ne_nil s []
  · rw [dif_neg hpat]
    split
    · exact List.cons_ne_nil s []
    · exact List.cons_ne_nil _ _

/-- joinWith distributes over a cons with a nonempty tail. -/
theorem joinWith_cons_of_ne_nil (sep x : List Char) (l : List (List Char)) (h : l ≠ []) :
    joinWith sep (x :: l) = x ++ sep ++ joinWith sep l := by
  cases l with
  | nil => exact absurd rfl h
  | cons y ys => rfl

/-- Rejoining the scan segments with the pattern restores the input. -/
theorem joinWith_splitSub (pat : List Char) (hpat : pat ≠ []) (s : List Char) :
    joinWith pat (splitSub pat s) = s := by
  have H : ∀ (n : Nat) (s : List Char), s.length ≤ n → joinWith pat (splitSub pat s) = s := by
    intro n
    induction n with
    | zero =>
        intro s hs
        have : s = [] := List.eq_nil_of_length_eq_zero (by omega)
        subst this
        rw [splitSub_eq_of_none pat [] (indexOfSub_nil pat hpat)]
        rfl
    | succ n ih =>
        intro s hs
        cases hidx : indexOfSub pat s with
        | none =>
            rw [splitSub_eq_of_none pat s hidx]
            rfl
        | some i =>
            obtain ⟨hdec, hlen⟩ := indexOfSub_decomp pat s i hidx
            have hplen : 0 < pat.length := List.length_pos.mpr hpat
            rw [splitSub_eq_of_some pat s i hpat hidx,
              joinWith_cons_of_ne_nil pat _ _ (splitSub_ne_nil pat _),
              ih (s.drop (i + pat.length)) (by simp only [List.length_drop]; omega)]
            exact hdec.symm
  exact H s.length s le_rfl

/-- The scan produces one more segment than the occurrence count. -/
theorem splitSub_length (pat : List Char) (hpat : pat ≠ []) (s : List Char) :
    (splitSub pat s).length = countSub pat s + 1 := by
  have H : ∀ (n : Nat) (s : List Char), s.length ≤ n →
      (splitSub pat s).length = countSub pat s + 1 := by
    intro n
    induction n with
    | zero =>
        intro s hs
        have : s = [] := List.eq_nil_of_length_eq_zero (by omega)
        subst this
        rw [splitSub_eq_of_none pat [] (indexOfSub_nil pat hpat),
          countSub_eq_of_none pat [] hpat (indexOfSub_nil pat hpat)]
        rfl
    | succ n ih =>
        intro s hs
        cases hidx : indexOfSub pat s with
        | none =>
            rw [splitSub_eq_of_none pat s hidx, countSub_eq_of_none pat s hpat hidx]
            rfl
        | some i =>
            obtain ⟨-, hlen⟩ := indexOfSub_decomp pat s i hidx
            have hplen : 0 < pat.length := List.length_pos.mpr hpat
            rw [splitSub_eq_of_some pat s i hpat hidx, countSub_eq_of_some pat s i hpat hidx]
            simp only [List.length_cons]
            rw [ih (s.drop (i + pat.length)) (by simp only [List.length_drop]; omega)]
            omega
  exact H s.length s le_rfl

/-- Replacing every occurrence equals rejoining the segments with the
replacement instead of the pattern. -/
theorem replaceAllSub_eq_joinWith (pat rep : List Char) (hpat : pat ≠ []) (s : List Char) :
    replaceAllSub pat rep s = joinWith rep (splitSub pat s) := by
  have H : ∀ (n : Nat) (s : List Char), s.length ≤ n →
      replaceAllSub pat rep s = joinWith rep (splitSub pat s) := by
    intro n
    induction n with
    | zero =>
        intro s hs
        have : s = [] := List.eq_nil_of_length_eq_zero (by omega)
        subst this
        rw [splitSub_eq_of_none pat [] (indexOfSub_nil pat hpat),
          replaceAllSub_eq_of_none pat rep [] hpat (indexOfSub_nil pat hpat)]
        rfl
    | succ n ih =>
        intro s hs
        cases hidx : indexOfSub pat s with
        | none =>
            rw [splitSub_eq_of_none pat s hidx, replaceAllSub_eq_of_none pat rep s hpat hidx]
            rfl
        | some i =>
            obtain ⟨-, hlen⟩ := indexOfSub_decomp pat s i hidx
            have hplen : 0 < pat.length := List.length_pos.mpr hpat
            rw [splitSub_eq_of_some pat s i hpat hidx,
              replaceAllSub_eq_of_some pat rep s i hpat hidx,
              joinWith_cons_of_ne_nil rep _ _ (splitSub_ne_nil pat _),
              ih (s.drop (i + pat.length)) (by simp only [List.length_drop]; omega)]
  exact H s.length s le_rfl

/-- No scan segment contains an occurrence of the pattern. -/
theorem splitSub_no_occurrence (pat : List Char) (hpat : pat ≠ []) (s : List Char) :
    ∀ p ∈ splitSub pat s, containsSub pat p = false := by
  have H : ∀ (n : Nat) (s : List Char), s.length ≤ n →
      ∀ p ∈ splitSub pat s, containsSub pat p = false := by
    intro n
    induction n with
    | zero =>
        intro s hs p hp
        have : s = [] := List.eq_nil_of_length_eq_zero (by omega)
        subst this
        rw [splitSub_eq_of_none pat [] (indexOfSub_nil pat hpat)] at hp
        simp only [List.mem_singleton] at hp
        subst hp
        unfold containsSub
        rw [indexOfSub_nil pat hpat]
        rfl
    | succ n ih =>
        intro s hs p hp
        cases hidx : indexOfSub pat s with
        | none =>
            rw [splitSub_eq_of_none pat s hidx] at hp
            simp only [List.mem_singleton] at hp
            subst hp
            unfold containsSub
            rw [hidx]
            rfl
        | some i =>
            obtain ⟨-, hlen⟩ := indexOfSub_decomp pat s i hidx
            have hplen : 0 < pat.length := List.length_pos.mpr hpat
            rw [splitSub_eq_of_some pat s i hpat hidx] at hp
            rcases List.mem_cons.mp hp with hp | hp
            · subst hp
              cases hcon : containsSub pat (s.take i) with
              | false => rfl
              | true =>
                  exfalso
                  unfold containsSub at hcon
                  cases hj : indexOfSub pat (s.take i) with
                  | none => rw [hj] at hcon; cases hcon
                  | some j =>
                      have hjpre := indexOfSub_isPrefix_drop pat (s.take i) j hj
                      obtain ⟨-, hjlen⟩ := indexOfSub_decomp pat (s.take i) j hj
                      have htklen : (s.take i).length ≤ i := by
                        simp [List.length_take]
                      have hji : j < i := by omega
                      have hpre : pat <+: s.drop j := by
                        have h1 : (s.take i).drop j = (s.drop j).take (i - j) :=
                          List.drop_take i j s ▸ by rw [List.drop_take]
                        rw [h1] at hjpre
                        exact hjpre.trans (List.take_prefix _ _)
                      exact indexOfSub_minimal pat s i hidx j hji hpre
            · exact ih (s.drop (i + pat.length)) (by simp only [List.length_drop]; omega) p hp
  exact H s.length s le_rfl

/-- A zero occurrence count means the scan finds nothing. -/
theorem indexOfSub_eq_none_of_countSub_eq_zero (pat s : List Char) (hpat : pat ≠ [])
    (h : countSub pat s = 0) : indexOfSub pat s = none := by
  cases hidx : indexOfSub pat s with
  | none => rfl
  | some i =>
      rw [countSub_eq_of_some pat s i hpat hidx] at h
      omega

/-! ## EditFile (internal/agent/env_local.go) -/

/-- Result of EditFile: the file content after the call and either an error or
the reported replacement count. -/
structure EditResult where
  disk : List Char
  reply : Except String Nat
deriving Repr

/-- Embedding of EditFile: error when the old string is absent, error when it
is not unique and replace_all is false, otherwise replace all occurrences
(reporting the count) or exactly the first one (reporting 1) and write the
file; errors return before the write, leaving the content unchanged. -/
def EditFile (content old new : List Char) (replaceAll : Bool) : EditResult :=
  if containsSub old content = false then
    ⟨content, Except.error "old_string not found"⟩
  else if replaceAll = false ∧ countSub old content ≠ 1 then
    ⟨content, Except.error "old_string not unique"⟩
  else if replaceAll = true then
    ⟨replaceAllSub old new content, Except.ok (countSub old content)⟩
  else
    ⟨replaceOnceSub old new content, Except.ok 1⟩

/-- C9. EditFile error atomicity: when the old string is absent, or not unique
with replace_all false, EditFile errors and the file content is unchanged;
a successful single replacement rewrites exactly the unique occurrence; a
successful replace_all rewrites every occurrence (the content splits into
pattern-free segments joined by the old string, and the result joins the same
segments by the new string), reporting the occurrence count. -/
theorem edit_file_error_atomicity :
    ∀ (content old new : List Char) (replaceAll : Bool),
      ((containsSub old content = false ∨
          (replaceAll = false ∧ countSub old content ≠ 1)) →
        (EditFile content old new replaceAll).disk = content ∧
          ∃ m, (EditFile content old new replaceAll).reply = Except.error m) ∧
      (old ≠ [] → containsSub old content = true → countSub old content = 1 →
        replaceAll = false →
        ∃ a b, content = a ++ old ++ b ∧ containsSub old b = false ∧
          (EditFile content old new replaceAll).disk = a ++ new ++ b ∧
          (EditFile content old new replaceAll).reply = Except.ok 1) ∧
      (old ≠ [] → containsSub old content = true → replaceAll = true →
        (EditFile content old new replaceAll).disk = joinWith new (splitSub old content) ∧
          content = joinWith old (splitSub old content) ∧
          (∀ p ∈ splitSub old content, containsSub old p = false) ∧
          (splitSub old content).length = countSub old content + 1 ∧
          (EditFile content old new replaceAll).reply =
            Except.ok (countSub old content)) := by
  intro content old new replaceAll
  refine ⟨?_, ?_, ?_⟩
  · intro herr
    rcases herr with hc | ⟨hra, hcnt⟩
    · rw [EditFile, if_pos hc]
      exact ⟨rfl, "old_string not found", rfl⟩
    · rw [EditFile]
      by_cases hc : containsSub old content = false
      · rw [if_pos hc]
        exact ⟨rfl, "old_string not found", rfl⟩
      · rw [if_neg hc, if_pos ⟨hra, hcnt⟩]
        exact ⟨rfl, "old_string not unique", rfl⟩
  · intro hold hc hcnt hra
    subst hra
    have hcs : (indexOfSub old content).isSome = true := hc
    cases hidx : indexOfSub old content with
    | none => rw [hidx] at hcs; cases hcs
    | some i =>
        obtain ⟨hdec, hlen⟩ := indexOfSub_decomp old content i hidx
        refine ⟨content.take i, content.drop (i + old.length), hdec, ?_, ?_, ?_⟩
        · rw [countSub_eq_of_some old content i hold hidx] at hcnt
          have h0 : countSub old (content.drop (i + old.length)) = 0 := by omega
          unfold containsSub
          rw [indexOfSub_eq_none_of_countSub_eq_zero old _ hold h0]
          rfl
        · rw [EditFile, if_neg (by rw [hc]; simp), if_neg (by simp [hcnt]),
            if_neg (by simp)]
          show replaceOnceSub old new content = _
          rw [replaceOnceSub, hidx]
        · rw [EditFile, if_neg (by rw [hc]; simp), if_neg (by simp [hcnt]),
            if_neg (by simp)]
  · intro hold hc hra
    subst hra
    have hbr : EditFile content old new true =
        ⟨replaceAllSub old new content, Except.ok (countSub old content)⟩ := by
      rw [EditFile, if_neg (by rw [hc]; simp), if_neg (by simp), if_pos rfl]
    refine ⟨?_, ?_, ?_, ?_, ?_⟩
    · rw [hbr]
      exact replaceAllSub_eq_joinWith old new hold content
    · exact (joinWith_splitSub old hold content).symm
    · exact splitSub_no_occurrence old hold content
    · exact splitSub_length old hold content
    · rw [hbr]

/-- Closed witness for C9: a missing old string leaves the file unchanged, a
unique occurrence is rewritten in place, and replace_all reports the count. -/
theorem edit_file_error_atomicity_witness :
    (EditFile ['a', 'b', 'c'] ['z'] ['X'] false).disk = ['a', 'b', 'c'] ∧
    (∃ a b, (['a', 'b', 'c'] : List Char) = a ++ ['b'] ++ b ∧ containsSub ['b'] b = false ∧
      (EditFile ['a', 'b', 'c'] ['b'] ['X'] false).disk = a ++ ['X'] ++ b ∧
      (EditFile ['a', 'b', 'c'] ['b'] ['X'] false).reply = Except.ok 1) ∧
    (EditFile ['a', 'b', 'a'] ['a'] ['X'] true).reply =
      Except.ok (countSub ['a'] ['a', 'b', 'a']) := by
  have hcount : countSub ['b'] ['a', 'b', 'c'] = 1 := by
    rw [countSub_eq_of_some ['b'] ['a', 'b', 'c'] 1 (by decide) (by decide),
      countSub_eq_of_none ['b'] _ (by decide) (by decide)]
  refine ⟨?_, ?_, ?_⟩
  · exact ((edit_file_error_atomicity ['a', 'b', 'c'] ['z'] ['X'] false).1
      (Or.inl (by decide))).1
  · exact (edit_file_error_atomicity ['a', 'b', 'c'] ['b'] ['X'] false).2.1
      (by decide) (by decide) hcount rfl
  · exact ((edit_file_error_atomicity ['a', 'b', 'a'] ['a'] ['X'] true).2.2
      (by decide) (by decide) rfl).2.2.2.2

/-! ## Subprocess environment filtering (internal/agent/env_local.go) -/

/-- Embedding of strings.ToUpper at the ASCII level. -/
def upperStr (s : String) : String :=
  String.mk (s.data.map Char.toUpper)

/-- The deny predicate of filteredEnv: the uppercased name contains one of the
five secret markers. -/
def deny (k : String) : Bool :=
  containsSub "API_KEY".data (upperStr k).data ||
  containsSub "SECRET".data (upperStr k).data ||
  containsSub "TOKEN".data (upperStr k).data ||
  containsSub "PASSWORD".data (upperStr k).data ||
  containsSub "CREDENTIAL".data (upperStr k).data

/-- The always-allowed names of filteredEnv. -/
def allowKey (k : String) : Bool :=
  k == "PATH" || k == "HOME" || k == "USER" || k == "SHELL" || k == "LANG" ||
  k == "TERM" || k == "TMPDIR" || k == "GOPATH" || k == "GOMODCACHE"

/-- The stripped-name set of filteredEnv: each strip key is trimmed, skipped
when blank, and recorded together with its uppercased form. -/
def strippedSet (stripKeys : List String) : List String :=
  stripKeys.foldl (fun acc k =>
    let kt := trimSpace k
    if kt = "" then acc else acc ++ [kt, upperStr kt]) []

/-- The isStripped closure: a name is stripped when it or its uppercased form
is in the stripped set. -/
def isStripped (s : List String) (k : String) : Bool :=
  s.contains k || s.contains (upperStr k)

/-- Embedding of strings.Cut at the first '=': the name and value parts, or
none when the entry has no '='. -/
def cutEqChars : List Char → Option (List Char × List Char)
  | [] => none
  | c :: t =>
      if c = '=' then some ([], t)
      else (cutEqChars t).map (fun p => (c :: p.1, p.2))

/-- The per-entry keep decision of the os.Environ loop in filteredEnv. -/
def keepEnvEntry (s : List String) (kv : String) : Bool :=
  match cutEqChars kv.data with
  | none => false
  | some (kchars, _) =>
      let k := String.mk kchars
      if isStripped s k then false
      else if allowKey k && !deny k then true
      else if deny k then false
      else true

/-- Embedding of filteredEnv: process environment entries are kept unless
stripped or denied; extra entries are appended as name=value unless stripped
or denied. -/
def filteredEnv (environ : List String) (extra : List (String × String))
    (stripKeys : List String) : List String :=
  let s := strippedSet stripKeys
  environ.filter (keepEnvEntry s) ++
    (extra.filter (fun p => !isStripped s p.1 && !deny p.1)).map
      (fun p => p.1 ++ "=" ++ p.2)

/-- Go map merge of the base environment and the caller-supplied variables in
ExecCommand: later writes win per key. -/
def mergeEnvMaps (base vars2 : List (String × String)) : List (String × String) :=
  base.filter (fun p => !vars2.any (fun q => q.1 == p.1)) ++ vars2

/-- Embedding of the environment construction in ExecCommand:
cmd.Env = filteredEnv(mergedEnv, e.StripEnvKeys). -/
def execCommandEnv (environ : List String) (base vars2 : List (String × String))
    (stripKeys : List String) : List String :=
  filteredEnv environ (mergeEnvMaps base vars2) stripKeys

/-- A successful cut decomposes the entry at its first '='. -/
theorem cutEqChars_decomp :
    ∀ (l a b : List Char), cutEqChars l = some (a, b) →
      l = a ++ '=' :: b ∧ ('=' : Char) ∉ a := by
  intro l
  induction l with
  | nil => intro a b h; cases h
  | cons c t ih =>
      intro a b h
      rw [cutEqChars] at h
      by_cases hc : c = '='
      · rw [if_pos hc] at h
        cases h
        subst hc
        exact ⟨rfl, List.not_mem_nil '='⟩
      · rw [if_neg hc] at h
        cases ht : cutEqChars t with
        | none => rw [ht] at h; cases h
        | some p =>
            rw [ht] at h
            simp only [Option.map_some'] at h
            cases h
            obtain ⟨hdec, hmem⟩ := ih p.1 p.2 ht
            refine ⟨by rw [List.cons_append, ← hdec], ?_⟩
            intro hin
            rcases List.mem_cons.mp hin with hin | hin
            · exact hc hin.symm
            · exact hmem hin

/-- Cutting an entry with an '='-free name finds exactly that name. -/
theorem cutEqChars_append (k v : List Char) (hk : ('=' : Char) ∉ k) :
    cutEqChars (k ++ '=' :: v) = some (k, v) := by
  induction k with
  | nil => rw [List.nil_append, cutEqChars, if_pos rfl]
  | cons c t ih =>
      have hc : c ≠ '=' := fun h => hk (h ▸ List.mem_cons_self c t)
      have ht : ('=' : Char) ∉ t := fun h => hk (List.mem_cons_of_mem c h)
      rw [List.cons_append, cutEqChars, if_neg hc, ih ht]
      rfl

/-- Two decompositions at '='-free names agree on the name. -/
theorem eq_name_of_eq_append :
    ∀ (k a v b : List Char), ('=' : Char) ∉ k → ('=' : Char) ∉ a →
      k ++ '=' :: v = a ++ '=' :: b → k = a := by
  intro k
  induction k with
  | nil =>
      intro a v b _ ha h
      cases a with
      | nil => rfl
      | cons d u =>
          rw [List.nil_append, List.cons_append] at h
          cases h
          exact absurd (List.mem_cons_self '=' u) (by simpa using ha)
  | cons c t ih =>
      intro a v b hk ha h
      cases a with
      | nil =>
          rw [List.nil_append, List.cons_append] at h
          cases h
          exact absurd (List.mem_cons_self '=' t) (by simpa using hk)
      | cons d u =>
          rw [List.cons_append, List.cons_append] at h
          injection h with h1 h2
          subst h1
          have := ih u v b (fun hmem => hk (List.mem_cons_of_mem c hmem))
            (fun hmem => ha (List.mem_cons_of_mem c hmem)) h2
          rw [this]

/-- The name part of one decomposition is a take-prefix of the other. -/
theorem name_take_of_eq_append :
    ∀ (k a v b : List Char), ('=' : Char) ∉ k →
      k ++ '=' :: v = a ++ '=' :: b → ∃ m, k = a.take m := by
  intro k
  induction k with
  | nil => intro a v b _ _; exact ⟨0, by simp⟩
  | cons c t ih =>
      intro a v b hk h
      cases a with
      | nil =>
          rw [List.nil_append, List.cons_append] at h
          cases h
          exact absurd (List.mem_cons_self '=' t) (by simpa using hk)
      | cons d u =>
          rw [List.cons_append, List.cons_append] at h
          injection h with h1 h2
          subst h1
          obtain ⟨m, hm⟩ := ih u v b (fun hmem => hk (List.mem_cons_of_mem c hmem)) h2
          exact ⟨m + 1, by rw [List.take_succ_cons, ← hm]⟩

/-- An occurrence inside a take-prefix is an occurrence in the whole list. -/
theorem containsSub_of_containsSub_take (needle x : List Char) (m : Nat)
    (h : containsSub needle (x.take m) = true) : containsSub needle x = true := by
  unfold containsSub at h
  cases hj : indexOfSub needle (x.take m) with
  | none => rw [hj] at h; cases h
  | some j =>
      have hjpre := indexOfSub_isPrefix_drop needle (x.take m) j hj
      have hpre : needle <+: x.drop j := by
        rw [List.drop_take] at hjpre
        exact hjpre.trans (List.take_prefix _ _)
      unfold containsSub
      cases hx : indexOfSub needle x with
      | none => exact absurd hpre (indexOfSub_none needle x hx j)
      | some i => rfl

/-- A name that is a take-prefix of an undenied name is undenied: each marker
test only sees fewer characters. -/
theorem deny_eq_false_of_name_take (p1 : String) (m : Nat) (hd : deny p1 = false) :
    deny (String.mk (p1.data.take m)) = false := by
  have block : ∀ needle : List Char,
      containsSub needle (p1.data.map Char.toUpper) = false →
      containsSub needle ((p1.data.take m).map Char.toUpper) = false := by
    intro needle h1
    cases hc : containsSub needle ((p1.data.take m).map Char.toUpper) with
    | false => rfl
    | true =>
        have hmono : containsSub needle (p1.data.map Char.toUpper) = true := by
          rw [List.map_take] at hc
          exact containsSub_of_containsSub_take needle _ m hc
        exact absurd hmono (by rw [h1]; exact Bool.false_ne_true)
  unfold deny upperStr at hd ⊢
  simp only [Bool.or_eq_false_iff] at hd ⊢
  obtain ⟨⟨⟨⟨h1, h2⟩, h3⟩, h4⟩, h5⟩ := hd
  exact ⟨⟨⟨⟨block _ h1, block _ h2⟩, block _ h3⟩, block _ h4⟩, block _ h5⟩

/-- The stripped-set fold only grows the accumulator. -/
theorem mem_strippedSet_fold_mono :
    ∀ (keys acc : List String) (x : String), x ∈ acc →
      x ∈ keys.foldl (fun acc k =>
        let kt := trimSpace k
        if kt = "" then acc else acc ++ [kt, upperStr kt]) acc := by
  intro keys
  induction keys with
  | nil => intro acc x hx; exact hx
  | cons k t ih =>
      intro acc x hx
      rw [List.foldl_cons]
      apply ih
      by_cases hkt : trimSpace k = ""
      · simpa [hkt] using hx
      · simp only [if_neg hkt]
        exact List.mem_append_left _ hx

/-- Every nonblank strip key contributes its trimmed uppercased form to the
stripped set. -/
theorem upper_trim_mem_strippedSet (stripKeys : List String) (sk : String)
    (h : sk ∈ stripKeys) (hne : trimSpace sk ≠ "") :
    upperStr (trimSpace sk) ∈ strippedSet stripKeys := by
  unfold strippedSet
  have aux : ∀ (keys acc : List String), sk ∈ keys →
      upperStr (trimSpace sk) ∈ keys.foldl (fun acc k =>
        let kt := trimSpace k
        if kt = "" then acc else acc ++ [kt, upperStr kt]) acc := by
    intro keys
    induction keys with
    | nil => intro acc hk; cases hk
    | cons k t ih =>
        intro acc hk
        rw [List.foldl_cons]
        rcases List.mem_cons.mp hk with hk | hk
        · subst hk
          apply mem_strippedSet_fold_mono
          simp only [if_neg hne]
          exact List.mem_append_right _ (by simp)
        · exact ih _ hk
  exact aux stripKeys [] h

/-- A kept process-environment entry has an undenied, unstripped cut name. -/
theorem keepEnvEntry_implies (s : List String) (kv : String)
    (h : keepEnvEntry s kv = true) :
    ∃ a b, cutEqChars kv.data = some (a, b) ∧
      isStripped s (String.mk a) = false ∧ deny (String.mk a) = false := by
  unfold keepEnvEntry at h
  cases hcut : cutEqChars kv.data with
  | none => rw [hcut] at h; cases h
  | some p =>
      obtain ⟨a, b⟩ := p
      rw [hcut] at h
      dsimp only at h
      refine ⟨a, b, rfl, ?_, ?_⟩
      · by_cases hst : isStripped s (String.mk a)
        · rw [if_pos hst] at h
          cases h
        · simpa using hst
      · by_cases hst : isStripped s (String.mk a)
        · rw [if_pos hst] at h
          cases h
        · rw [if_neg hst] at h
          by_cases hdy : deny (String.mk a)
          · rw [if_neg (by simp [hdy]), if_pos hdy] at h
            cases h
          · simpa using hdy

/-- C10. Subprocess environment secret stripping: every entry of the filtered
environment parses to a name that is not denied (its uppercased form contains
none of API_KEY, SECRET, TOKEN, PASSWORD, CREDENTIAL), whether the entry comes
from the process environment or the extra map; every nonblank strip key
excludes, case-insensitively, any matching name from both sources; and the
ExecCommand subprocess environment is exactly the filtered merge of the base
environment with the caller-supplied variables. -/
theorem subprocess_env_secret_stripping :
    ∀ (environ : List String) (extra : List (String × String)) (stripKeys : List String),
      (∀ entry ∈ filteredEnv environ extra stripKeys, ∀ (k v : String),
        entry.data = k.data ++ '=' :: v.data → ('=' : Char) ∉ k.data →
        deny k = false) ∧
      (∀ sk ∈ stripKeys, trimSpace sk ≠ "" →
        (∀ p ∈ extra, ('=' : Char) ∉ p.1.data) →
        ∀ entry ∈ filteredEnv environ extra stripKeys, ∀ (k v : String),
          entry.data = k.data ++ '=' :: v.data → ('=' : Char) ∉ k.data →
          upperStr k ≠ upperStr (trimSpace sk)) ∧
      (∀ (base vars2 : List (String × String)),
        execCommandEnv environ base vars2 stripKeys =
          filteredEnv environ (mergeEnvMaps base vars2) stripKeys) := by
  intro environ extra stripKeys
  refine ⟨?_, ?_, ?_⟩
  · intro entry hmem k v hdata hkfree
    rcases List.mem_append.mp hmem with henv | hext
    · have hkeep := (List.mem_filter.mp henv).2
      obtain ⟨a, b, hcut, hstr, hdeny⟩ := keepEnvEntry_implies _ entry hkeep
      have hcut2 : cutEqChars entry.data = some (k.data, v.data) := by
        rw [hdata]
        exact cutEqChars_append _ _ hkfree
      rw [hcut] at hcut2
      have hak : a = k.data := (Prod.mk.injEq _ _ _ _ ▸ Option.some.inj hcut2).1
      rw [hak] at hdeny
      exact hdeny
    · obtain ⟨p, hpmem, hpeq⟩ := List.mem_map.mp hext
      have hfilter := (List.mem_filter.mp hpmem).2
      simp only [Bool.and_eq_true, Bool.not_eq_true'] at hfilter
      have hdata2 : k.data ++ '=' :: v.data = p.1.data ++ '=' :: p.2.data := by
        rw [← hdata, ← hpeq]
        simp [String.data_append]
      obtain ⟨m, hm⟩ := name_take_of_eq_append k.data p.1.data v.data p.2.data hkfree hdata2
      have hden := deny_eq_false_of_name_take p.1 m hfilter.2
      have hk : k = String.mk (p.1.data.take m) := by
        cases k with
        | mk d => exact congrArg String.mk hm
      rw [hk]
      exact hden
  · intro sk hsk hne hextfree entry hmem k v hdata hkfree heq
    have hmemS : upperStr (trimSpace sk) ∈ strippedSet stripKeys :=
      upper_trim_mem_strippedSet stripKeys sk hsk hne
    rcases List.mem_append.mp hmem with henv | hext
    · have hkeep := (List.mem_filter.mp henv).2
      obtain ⟨a, b, hcut, hstr, -⟩ := keepEnvEntry_implies _ entry hkeep
      have hcut2 : cutEqChars entry.data = some (k.data, v.data) := by
        rw [hdata]
        exact cutEqChars_append _ _ hkfree
      rw [hcut] at hcut2
      have hak : a = k.data := (Prod.mk.injEq _ _ _ _ ▸ Option.some.inj hcut2).1
      rw [hak] at hstr
      unfold isStripped at hstr
      simp only [Bool.or_eq_false_iff] at hstr
      have hnc : (strippedSet stripKeys).contains (upperStr (String.mk k.data)) = false :=
        hstr.2
      have hkk : upperStr (String.mk k.data) = upperStr k := by
        cases k with
        | mk d => rfl
      rw [hkk, heq] at hnc
      simp at hnc
      exact hnc hmemS
    · obtain ⟨p, hpmem, hpeq⟩ := List.mem_map.mp hext
      have hfilter := (List.mem_filter.mp hpmem).2
      simp only [Bool.and_eq_true, Bool.not_eq_true'] at hfilter
      have hdata2 : k.data ++ '=' :: v.data = p.1.data ++ '=' :: p.2.data := by
        rw [← hdata, ← hpeq]
        simp [String.data_append]
      have hkp : k = p.1 := by
        have := eq_name_of_eq_append k.data p.1.data v.data p.2.data hkfree
          (hextfree p (List.mem_filter.mp hpmem).1) hdata2
        cases k with
        | mk d =>
            cases hp1 : p.1 with
            | mk d2 =>
                apply congrArg String.mk
                rw [hp1] at this
                exact this
      have hstr := hfilter.1
      unfold isStripped at hstr
      simp only [Bool.or_eq_false_iff] at hstr
      have hnc := hstr.2
      rw [← hkp, heq] at hnc
      simp at hnc
      exact hnc hmemS
  · intro base vars2
    rfl

/-- Closed witness for C10: in a concrete environment with a TOKEN variable
and a stripped key, the surviving entry name is neither denied nor equal to
the strip key case-insensitively. -/
theorem subprocess_env_secret_stripping_witness :
    deny "PATH" = false ∧ upperStr "PATH" ≠ upperStr (trimSpace "foo") := by
  constructor
  · exact (subprocess_env_secret_stripping ["PATH=/bin", "MY_TOKEN=x"] [("FOO", "1")]
      ["foo"]).1 "PATH=/bin" (by decide) "PATH" "/bin" (by decide) (by decide)
  · exact (subprocess_env_secret_stripping ["PATH=/bin", "MY_TOKEN=x"] [("FOO", "1")]
      ["foo"]).2.1 "foo" (by decide) (by decide) (by decide) "PATH=/bin" (by decide)
      "PATH" "/bin" (by decide) (by decide)

/-! ## Run-state snapshot (internal/attractor/runstate/snapshot.go) -/

/-- Embedding of strings.ToLower at the ASCII level. -/
def lowerStr (s : String) : String :=
  String.mk (s.data.map Char.toLower)

/-- Outcome of reading and decoding one JSON artifact: absent file, read
error other than absence, decode error, or the decoded document. -/
inductive FileRead (α : Type) where
  | missing
  | readFailure
  | decodeFailure
  | parsed (doc : α)

/-- Outcome of reading the raw run.pid file. -/
inductive PidRead where
  | missing
  | readFailure
  | content (raw : String)
deriving DecidableEq, Repr

/-- The decoded final.json document (finalOutcomeDoc). -/
structure FinalDoc where
  status : String
  runID : String
  failureReason : String
deriving Repr

/-- Run states of the runstate package. -/
inductive RunState where
  | unknown
  | success
  | fail
  | running
deriving DecidableEq, Repr

/-- The snapshot assembled by LoadSnapshot (fields the code writes). -/
structure Snapshot where
  logsRoot : String
  state : RunState
  runID : String := ""
  failureReason : String := ""
  lastEvent : String := ""
  currentNodeID : String := ""
  lastEventAt : Option Nat := none
  pid : Nat := 0
  pidAlive : Bool := false
deriving Repr

/-- The artifacts under one logs root as LoadSnapshot reads them, plus the
process-liveness oracle standing for pidAlive (kill 0 with the zombie check)
and the timestamp parser standing for parseEventTime (none for unparseable). -/
structure RunFS where
  finalFile : FileRead FinalDoc
  liveFile : FileRead Event
  progressLast : FileRead Event
  pidFile : PidRead
  pidAliveOracle : Nat → Bool
  parseTs : String → Option Nat

/-- eventString of one event field: trimmed value, empty when absent. -/
def evStr (ev : Event) (k : String) : String :=
  trimSpace ((evGet ev k).getD "")

/-- Embedding of applyFinalOutcome: a missing final.json changes nothing,
read or decode errors abort, and a parsed document installs the run id and,
for a success or fail status (lowercased, trimmed), the terminal state with
the failure reason when failing. -/
def applyFinalOutcome (fs : RunFS) (s : Snapshot) : Except String Snapshot :=
  match fs.finalFile with
  | FileRead.missing => Except.ok s
  | FileRead.readFailure => Except.error "read final.json"
  | FileRead.decodeFailure => Except.error "decode final.json"
  | FileRead.parsed doc =>
      let s := if trimSpace doc.runID ≠ "" then { s with runID := trimSpace doc.runID } else s
      let st := lowerStr (trimSpace doc.status)
      if st = "success" then Except.ok { s with state := RunState.success }
      else if st = "fail" then
        Except.ok (if trimSpace doc.failureReason ≠ "" then
          { s with state := RunState.fail, failureReason := trimSpace doc.failureReason }
        else { s with state := RunState.fail })
      else Except.ok s

/-- Applying the fields of a live or progress event to the snapshot, as in
applyLiveOrProgress after an event is found. -/
def applyEvent (fs : RunFS) (ev : Event) (s : Snapshot) : Snapshot :=
  let s := if evStr ev "run_id" ≠ "" ∧ s.runID = "" then
    { s with runID := evStr ev "run_id" } else s
  let s := { s with lastEvent := evStr ev "event", currentNodeID := evStr ev "node_id" }
  let s := match fs.parseTs (evStr ev "ts") with
    | some t => { s with lastEventAt := some t }
    | none => s
  if evStr ev "failure_reason" ≠ "" then { s with failureReason := evStr ev "failure_reason" }
  else s

/-- Embedding of applyLiveOrProgress: live.json is preferred; only when it is
absent is the last progress.ndjson event used; absence of both changes
nothing; read and decode errors abort. -/
def applyLiveOrProgress (fs : RunFS) (s : Snapshot) : Except String Snapshot :=
  match fs.liveFile with
  | FileRead.readFailure => Except.error "read live.json"
  | FileRead.decodeFailure => Except.error "decode live.json"
  | FileRead.parsed ev => Except.ok (applyEvent fs ev s)
  | FileRead.missing =>
      match fs.progressLast with
      | FileRead.readFailure => Except.error "read progress.ndjson"
      | FileRead.decodeFailure => Except.error "decode progress.ndjson"
      | FileRead.missing => Except.ok s
      | FileRead.parsed ev => Except.ok (applyEvent fs ev s)

/-- Embedding of strconv.Atoi restricted to what applyPIDFile accepts: a
nonempty all-digit numeral (a sign or any other character fails, as does the
pid <= 0 check). -/
def parsePid (raw : String) : Option Nat :=
  if raw.data ≠ [] ∧ raw.data.all Char.isDigit then
    let v := raw.data.foldl (fun acc c => acc * 10 + (c.toNat - '0'.toNat)) 0
    if v > 0 then some v else none
  else none

/-- Embedding of applyPIDFile: a missing run.pid changes nothing, a read
error aborts, and an empty or unparseable pid aborts only when the run is not
terminal (tolerateParseErrors); a valid pid is recorded with its liveness. -/
def applyPIDFile (fs : RunFS) (tolerateParseErrors : Bool) (s : Snapshot) :
    Except String Snapshot :=
  match fs.pidFile with
  | PidRead.missing => Except.ok s
  | PidRead.readFailure => Except.error "read run.pid"
  | PidRead.content raw =>
      let raw := trimSpace raw
      if raw = "" then
        if tolerateParseErrors then Except.ok s else Except.error "empty pid"
      else
        match parsePid raw with
        | none => if tolerateParseErrors then Except.ok s else Except.error "invalid pid"
        | some pid => Except.ok { s with pid := pid, pidAlive := fs.pidAliveOracle pid }

/-- The snapshot LoadSnapshot starts from: trimmed logs root, unknown state. -/
def initialSnapshot (logsRoot : String) : Snapshot :=
  ⟨trimSpace logsRoot, RunState.unknown, "", "", "", "", none, 0, false⟩

/-- Embedding of LoadSnapshot: final.json first; a terminal state makes
live.json and progress.ndjson irrelevant; the pid file is applied with
terminal-tolerant parsing; an unknown state with a live pid reports running. -/
def LoadSnapshot (fs : RunFS) (logsRoot : String) : Except String Snapshot :=
  if trimSpace logsRoot = "" then Except.error "logs root is required"
  else
    match applyFinalOutcome fs (initialSnapshot logsRoot) with
    | Except.error e => Except.error e
    | Except.ok s1 =>
        let terminal := s1.state = RunState.success ∨ s1.state = RunState.fail
        match (if terminal then Except.ok s1 else applyLiveOrProgress fs s1) with
        | Except.error e => Except.error e
        | Except.ok s2 =>
            match applyPIDFile fs (decide terminal) s2 with
            | Except.error e => Except.error e
            | Except.ok s3 =>
                if s3.state = RunState.unknown ∧ s3.pidAlive then
                  Except.ok { s3 with state := RunState.running }
                else Except.ok s3

/-- applyFinalOutcome only reads final.json. -/
theorem applyFinalOutcome_congr (fs fs' : RunFS) (h : fs'.finalFile = fs.finalFile) :
    ∀ s, applyFinalOutcome fs' s = applyFinalOutcome fs s := by
  intro s
  unfold applyFinalOutcome
  rw [h]

/-- applyPIDFile only reads run.pid and the liveness oracle. -/
theorem applyPIDFile_congr (fs fs' : RunFS) (hp : fs'.pidFile = fs.pidFile)
    (ho : fs'.pidAliveOracle = fs.pidAliveOracle) :
    ∀ (b : Bool) (s : Snapshot), applyPIDFile fs' b s = applyPIDFile fs b s := by
  intro b s
  unfold applyPIDFile
  rw [hp, ho]

/-- applyFinalOutcome on a parsed success document. -/
theorem applyFinalOutcome_parsed_success (fs : RunFS) (s : Snapshot) (doc : FinalDoc)
    (hf : fs.finalFile = FileRead.parsed doc)
    (hs : lowerStr (trimSpace doc.status) = "success") :
    applyFinalOutcome fs s = Except.ok
      { (if trimSpace doc.runID ≠ "" then { s with runID := trimSpace doc.runID } else s) with
        state := RunState.success } := by
  unfold applyFinalOutcome
  rw [hf]
  dsimp only
  rw [if_pos hs]

/-- applyFinalOutcome on a parsed fail document. -/
theorem applyFinalOutcome_parsed_fail (fs : RunFS) (s : Snapshot) (doc : FinalDoc)
    (hf : fs.finalFile = FileRead.parsed doc)
    (hs : lowerStr (trimSpace doc.status) = "fail") :
    applyFinalOutcome fs s = Except.ok
      (let base := if trimSpace doc.runID ≠ "" then { s with runID := trimSpace doc.runID } else s
       if trimSpace doc.failureReason ≠ "" then
         { base with state := RunState.fail, failureReason := trimSpace doc.failureReason }
       else { base with state := RunState.fail }) := by
  unfold applyFinalOutcome
  rw [hf]
  dsimp only
  rw [if_neg (by rw [hs]; decide), if_pos hs]

/-- With a tolerant parse (terminal run), applyPIDFile never errors short of a
read failure and never changes the routing fields. -/
theorem applyPIDFile_tolerant (fs : RunFS) (s : Snapshot)
    (h : fs.pidFile ≠ PidRead.readFailure) :
    ∃ s', applyPIDFile fs true s = Except.ok s' ∧ s'.state = s.state ∧
      s'.failureReason = s.failureReason ∧ s'.runID = s.runID := by
  unfold applyPIDFile
  cases hp : fs.pidFile with
  | missing => exact ⟨s, rfl, rfl, rfl, rfl⟩
  | readFailure => exact absurd hp h
  | content raw =>
      dsimp only
      by_cases hraw : trimSpace raw = ""
      · rw [if_pos hraw]
        exact ⟨s, rfl, rfl, rfl, rfl⟩
      · rw [if_neg hraw]
        cases hpid : parsePid (trimSpace raw) with
        | none => exact ⟨s, rfl, rfl, rfl, rfl⟩
        | some pid => exact ⟨_, rfl, rfl, rfl, rfl⟩

/-- Reduction of LoadSnapshot once final.json produced a terminal state. -/
theorem LoadSnapshot_eval_terminal (fs : RunFS) (root : String) (s1 : Snapshot)
    (hroot : trimSpace root ≠ "")
    (hfo : applyFinalOutcome fs (initialSnapshot root) = Except.ok s1)
    (hterm : s1.state = RunState.success ∨ s1.state = RunState.fail) :
    LoadSnapshot fs root =
      match applyPIDFile fs true s1 with
      | Except.error e => Except.error e
      | Except.ok s3 =>
          if s3.state = RunState.unknown ∧ s3.pidAlive then
            Except.ok { s3 with state := RunState.running }
          else Except.ok s3 := by
  unfold LoadSnapshot
  rw [if_neg hroot, hfo]
  dsimp only
  rw [if_pos hterm, decide_eq_true hterm]

/-- applyEvent installs the event and node fields and leaves state and pid
liveness untouched. -/
theorem applyEvent_proj (fs : RunFS) (ev : Event) (s : Snapshot) :
    (applyEvent fs ev s).lastEvent = evStr ev "event" ∧
    (applyEvent fs ev s).currentNodeID = evStr ev "node_id" ∧
    (applyEvent fs ev s).state = s.state ∧
    (applyEvent fs ev s).pidAlive = s.pidAlive := by
  unfold applyEvent
  by_cases h1 : evStr ev "run_id" ≠ "" ∧ s.runID = "" <;>
    cases h2 : fs.parseTs (evStr ev "ts") <;>
      by_cases h3 : evStr ev "failure_reason" ≠ "" <;>
        simp [h1, h2, h3]

/-- C8. Run-state snapshot precedence: a final.json that parses with a
terminal status is authoritative — the snapshot carries that state (and the
recorded failure reason when failing), live.json and progress.ndjson are never
consulted, and a malformed or missing run.pid is tolerated; without a terminal
final.json the last live event is consulted, and a still-unknown state with a
live pid is reported as running. -/
theorem run_state_snapshot_precedence :
    (∀ (fs : RunFS) (root : String) (doc : FinalDoc),
      trimSpace root ≠ "" →
      fs.finalFile = FileRead.parsed doc →
      lowerStr (trimSpace doc.status) = "success" →
      fs.pidFile ≠ PidRead.readFailure →
      (∃ s, LoadSnapshot fs root = Except.ok s ∧ s.state = RunState.success) ∧
        (∀ fs' : RunFS, fs'.finalFile = fs.finalFile → fs'.pidFile = fs.pidFile →
          fs'.pidAliveOracle = fs.pidAliveOracle →
          LoadSnapshot fs' root = LoadSnapshot fs root)) ∧
    (∀ (fs : RunFS) (root : String) (doc : FinalDoc),
      trimSpace root ≠ "" →
      fs.finalFile = FileRead.parsed doc →
      lowerStr (trimSpace doc.status) = "fail" →
      trimSpace doc.failureReason ≠ "" →
      fs.pidFile ≠ PidRead.readFailure →
      (∃ s, LoadSnapshot fs root = Except.ok s ∧ s.state = RunState.fail ∧
          s.failureReason = trimSpace doc.failureReason) ∧
        (∀ fs' : RunFS, fs'.finalFile = fs.finalFile → fs'.pidFile = fs.pidFile →
          fs'.pidAliveOracle = fs.pidAliveOracle →
          LoadSnapshot fs' root = LoadSnapshot fs root)) ∧
    (∀ (fs : RunFS) (root : String) (ev : Event),
      trimSpace root ≠ "" →
      fs.finalFile = FileRead.missing →
      fs.liveFile = FileRead.parsed ev →
      fs.pidFile = PidRead.missing →
      ∃ s, LoadSnapshot fs root = Except.ok s ∧ s.lastEvent = evStr ev "event" ∧
        s.currentNodeID = evStr ev "node_id") ∧
    (∀ (fs : RunFS) (root raw : String) (pid : Nat),
      trimSpace root ≠ "" →
      fs.finalFile = FileRead.missing →
      fs.liveFile = FileRead.missing →
      fs.progressLast = FileRead.missing →
      fs.pidFile = PidRead.content raw →
      parsePid (trimSpace raw) = some pid →
      fs.pidAliveOracle pid = true →
      ∃ s, LoadSnapshot fs root = Except.ok s ∧ s.state = RunState.running ∧
        s.pid = pid ∧ s.pidAlive = true) := by
  refine ⟨?_, ?_, ?_, ?_⟩
  · intro fs root doc hroot hf hs hp
    have hfo := applyFinalOutcome_parsed_success fs (initialSnapshot root) doc hf hs
    set s1 : Snapshot :=
      { (if trimSpace doc.runID ≠ "" then
          { initialSnapshot root with runID := trimSpace doc.runID }
        else initialSnapshot root) with state := RunState.success } with hs1
    have hstate1 : s1.state = RunState.success := by rw [hs1]
    have heval := LoadSnapshot_eval_terminal fs root s1 hroot hfo (Or.inl hstate1)
    obtain ⟨s', hps, hst', hfr', hrid'⟩ := applyPIDFile_tolerant fs s1 hp
    constructor
    · refine ⟨s', ?_, by rw [hst', hstate1]⟩
      rw [heval, hps]
      dsimp only
      rw [if_neg (by rw [hst', hstate1]; simp)]
    · intro fs' hf' hp' ho'
      have hfo' : applyFinalOutcome fs' (initialSnapshot root) = Except.ok s1 := by
        rw [applyFinalOutcome_congr fs fs' hf']
        exact hfo
      have heval' := LoadSnapshot_eval_terminal fs' root s1 hroot hfo' (Or.inl hstate1)
      rw [heval, heval', applyPIDFile_congr fs fs' hp' ho']
  · intro fs root doc hroot hf hs hfr hp
    have hfo := applyFinalOutcome_parsed_fail fs (initialSnapshot root) doc hf hs
    rw [if_pos hfr] at hfo
    set s1 : Snapshot :=
      { (if trimSpace doc.runID ≠ "" then
          { initialSnapshot root with runID := trimSpace doc.runID }
        else initialSnapshot root) with
        state := RunState.fail, failureReason := trimSpace doc.failureReason } with hs1
    have hstate1 : s1.state = RunState.fail := by rw [hs1]
    have hreason1 : s1.failureReason = trimSpace doc.failureReason := by rw [hs1]
    have heval := LoadSnapshot_eval_terminal fs root s1 hroot hfo (Or.inr hstate1)
    obtain ⟨s', hps, hst', hfr', hrid'⟩ := applyPIDFile_tolerant fs s1 hp
    constructor
    · refine ⟨s', ?_, by rw [hst', hstate1], by rw [hfr', hreason1]⟩
      rw [heval, hps]
      dsimp only
      rw [if_neg (by rw [hst', hstate1]; simp)]
    · intro fs' hf' hp' ho'
      have hfo' : applyFinalOutcome fs' (initialSnapshot root) = Except.ok s1 := by
        rw [applyFinalOutcome_congr fs fs' hf']
        exact hfo
      have heval' := LoadSnapshot_eval_terminal fs' root s1 hroot hfo' (Or.inr hstate1)
      rw [heval, heval', applyPIDFile_congr fs fs' hp' ho']
  · intro fs root ev hroot hf hl hp
    have hfo : applyFinalOutcome fs (initialSnapshot root) = Except.ok (initialSnapshot root) := by
      unfold applyFinalOutcome
      rw [hf]
    have hlive : applyLiveOrProgress fs (initialSnapshot root) =
        Except.ok (applyEvent fs ev (initialSnapshot root)) := by
      unfold applyLiveOrProgress
      rw [hl]
    obtain ⟨hev1, hev2, hev3, hev4⟩ := applyEvent_proj fs ev (initialSnapshot root)
    refine ⟨applyEvent fs ev (initialSnapshot root), ?_, hev1, hev2⟩
    unfold LoadSnapshot
    rw [if_neg hroot, hfo]
    dsimp only
    rw [if_neg (by simp [initialSnapshot]), hlive]
    dsimp only
    unfold applyPIDFile
    rw [hp]
    dsimp only
    rw [if_neg (by rw [hev3, hev4]; simp [initialSnapshot])]
  · intro fs root raw pid hroot hf hl hpr hp hpid halive
    have hfo : applyFinalOutcome fs (initialSnapshot root) = Except.ok (initialSnapshot root) := by
      unfold applyFinalOutcome
      rw [hf]
    have hlive : applyLiveOrProgress fs (initialSnapshot root) =
        Except.ok (initialSnapshot root) := by
      unfold applyLiveOrProgress
      rw [hl, hpr]
    have hrawne : trimSpace raw ≠ "" := by
      intro hraw
      rw [hraw] at hpid
      simp [parsePid] at hpid
    set sfin : Snapshot := { initialSnapshot root with
      pid := pid
      pidAlive := fs.pidAliveOracle pid
      state := RunState.running } with hsfin
    refine ⟨sfin, ?_, by rw [hsfin], by rw [hsfin], ?_⟩
    · unfold LoadSnapshot
      rw [if_neg hroot, hfo]
      dsimp only
      rw [if_neg (by simp [initialSnapshot]), hlive]
      dsimp only
      unfold applyPIDFile
      rw [hp]
      dsimp only
      rw [if_neg hrawne, hpid]
      dsimp only
      rw [if_pos (by refine ⟨by simp [initialSnapshot], ?_⟩; simp [halive])]
    · simp [halive]

/-- Closed witness for C8: a concrete terminal final.json wins over a live
event and a garbage pid file, and a pid-only logs root reports running. -/
theorem run_state_snapshot_precedence_witness :
    (∃ s, LoadSnapshot
        ⟨FileRead.parsed ⟨"success", "r1", ""⟩, FileRead.parsed [("event", "boom")],
          FileRead.missing, PidRead.content "zzz", fun _ => false, fun _ => none⟩
        "/logs" = Except.ok s ∧ s.state = RunState.success) ∧
    (∃ s, LoadSnapshot
        ⟨FileRead.missing, FileRead.missing, FileRead.missing, PidRead.content "42",
          fun _ => true, fun _ => none⟩
        "/logs" = Except.ok s ∧ s.state = RunState.running ∧ s.pid = 42 ∧
        s.pidAlive = true) := by
  constructor
  · exact (run_state_snapshot_precedence.1
      ⟨FileRead.parsed ⟨"success", "r1", ""⟩, FileRead.parsed [("event", "boom")],
        FileRead.missing, PidRead.content "zzz", fun _ => false, fun _ => none⟩
      "/logs" ⟨"success", "r1", ""⟩ (by decide) rfl (by decide) (by decide)).1
  · exact run_state_snapshot_precedence.2.2.2
      ⟨FileRead.missing, FileRead.missing, FileRead.missing, PidRead.content "42",
        fun _ => true, fun _ => none⟩
      "/logs" "42" 42 (by decide) rfl rfl rfl rfl (by decide) rfl

/-! ## Parallel fan-in aggregation and next-hop resolution (spec sections
4.2.5 and 4.4) -/

/-- Prefix test on strings via the underlying character lists. -/
def startsWithStr (p s : String) : Bool :=
  p.data.isPrefixOf s.data

/-- Modelled from the spec: the all-fail class aggregation of the parallel
fan-in handler is not among the repository files in the snapshot.  Per
section 4.2.5, any deterministic branch class wins, otherwise all
transient_infra yields transient_infra, otherwise (empty or unknown) the
result is deterministic. -/
def aggregateAllFailClass (classes : List String) : String :=
  if classes.any (fun c => normalizedFailureClassOrDefault c == failureClassDeterministic) then
    failureClassDeterministic
  else if !classes.isEmpty &&
      classes.all (fun c => normalizedFailureClassOrDefault c == failureClassTransientInfra) then
    failureClassTransientInfra
  else failureClassDeterministic

/-- Modelled from the spec: the all-fail aggregated outcome of the fan-in.
The signature carries the parallel_all_failed| prefix and the reason names
the contributing branches. -/
def aggregateAllFail (branches : List (String × Outcome)) : Outcome :=
  { status := Status.fail
    failureReason := "parallel_all_failed: " ++ String.intercalate "," (branches.map (fun b => b.1))
    failureClass := aggregateAllFailClass (branches.map (fun b => b.2.failureClass))
    failureSignature := "parallel_all_failed|" ++ String.intercalate "|" (branches.map (fun b => b.1)) }

/-- A labeled edge for next-hop resolution: target and optional condition
(the modelled condition grammar compares the context outcome value). -/
structure REdge where
  toNode : String
  condition : Option String
deriving DecidableEq, Repr

/-- Resolution result: a matching edge, the retry-target chain, terminal fail
for an unrouted failure, or normal termination. -/
inductive NextHop where
  | edgeTo (n : String)
  | retryTargetTo (n : String)
  | terminateFail
  | terminateNormal
deriving DecidableEq, Repr

/-- Modelled from the spec: resolveNextHop is not among the repository files
in the snapshot.  Per section 4.4 step 5, edges are evaluated in declared
order and the first satisfied one is chosen; when the source is a fan-in node
and the outcome is fail or retry, unconditional edges are skipped; when no
edge matches a failing outcome, the node, graph, and fallback retry targets
are consulted in order; otherwise the run terminates as fail. -/
def resolveNextHop (isFanIn : Bool) (outcome : String) (edges : List REdge)
    (nodeRetry graphRetry fallbackRetry : Option String) : NextHop :=
  match edges.find? (fun e =>
    match e.condition with
    | none => !(isFanIn && (outcome == "fail" || outcome == "retry"))
    | some want => want == outcome) with
  | some e => NextHop.edgeTo e.toNode
  | none =>
      if outcome == "fail" || outcome == "retry" then
        match nodeRetry with
        | some n => NextHop.retryTargetTo n
        | none =>
            match graphRetry with
            | some n => NextHop.retryTargetTo n
            | none =>
                match fallbackRetry with
                | some n => NextHop.retryTargetTo n
                | none => NextHop.terminateFail
      else NextHop.terminateNormal

/-- C2. Parallel fan-in all-fail behavior: the aggregated class follows the
precedence any-deterministic, else all-transient_infra, else deterministic;
the signature is prefixed parallel_all_failed|; and on a failing fan-in
outcome an edge is taken only when it carries a condition matching the
outcome, so with only unconditional edges and no retry targets the run
terminates as fail and the unconditional successor is never chosen. -/
theorem fan_in_all_fail_policy :
    (∀ branches : List (String × Outcome),
      ((∃ b ∈ branches,
          normalizedFailureClassOrDefault b.2.failureClass = failureClassDeterministic) →
        (aggregateAllFail branches).failureClass = failureClassDeterministic) ∧
      (branches ≠ [] →
        (∀ b ∈ branches,
          normalizedFailureClassOrDefault b.2.failureClass = failureClassTransientInfra) →
        (aggregateAllFail branches).failureClass = failureClassTransientInfra) ∧
      (branches = [] →
        (aggregateAllFail branches).failureClass = failureClassDeterministic) ∧
      startsWithStr "parallel_all_failed|" (aggregateAllFail branches).failureSignature = true ∧
      (aggregateAllFail branches).status = Status.fail) ∧
    (∀ (outcome : String) (edges : List REdge)
        (nodeRetry graphRetry fallbackRetry : Option String),
      (outcome = "fail" ∨ outcome = "retry") →
      (∀ (n : String), resolveNextHop true outcome edges nodeRetry graphRetry fallbackRetry =
          NextHop.edgeTo n →
        ∃ e ∈ edges, e.condition = some outcome ∧ e.toNode = n) ∧
      ((∀ e ∈ edges, e.condition = none) →
        nodeRetry = none → graphRetry = none → fallbackRetry = none →
        resolveNextHop true outcome edges nodeRetry graphRetry fallbackRetry =
          NextHop.terminateFail) ∧
      ((∀ e ∈ edges, e.condition = none) → ∀ t,
        nodeRetry = some t →
        resolveNextHop true outcome edges nodeRetry graphRetry fallbackRetry =
          NextHop.retryTargetTo t)) := by
  constructor
  · intro branches
    have hsig : startsWithStr "parallel_all_failed|"
        (aggregateAllFail branches).failureSignature = true := by
      show ("parallel_all_failed|".data.isPrefixOf
        ("parallel_all_failed|" ++ String.intercalate "|" (branches.map (fun b => b.1))).data) = true
      rw [String.data_append]
      exact List.isPrefixOf_iff_prefix.mpr ⟨_, rfl⟩
    refine ⟨?_, ?_, ?_, hsig, rfl⟩
    · rintro ⟨b, hb, hdet⟩
      show aggregateAllFailClass (branches.map (fun b => b.2.failureClass)) = _
      unfold aggregateAllFailClass
      have hany : ((branches.map (fun b => b.2.failureClass)).any
          (fun c => normalizedFailureClassOrDefault c == failureClassDeterministic)) = true := by
        rw [List.any_eq_true]
        exact ⟨b.2.failureClass, List.mem_map.mpr ⟨b, hb, rfl⟩, by rw [hdet]; decide⟩
      rw [if_pos hany]
    · intro hne hall
      show aggregateAllFailClass (branches.map (fun b => b.2.failureClass)) = _
      unfold aggregateAllFailClass
      have hany : ((branches.map (fun b => b.2.failureClass)).any
          (fun c => normalizedFailureClassOrDefault c == failureClassDeterministic)) = false := by
        cases h : ((branches.map (fun b => b.2.failureClass)).any
            (fun c => normalizedFailureClassOrDefault c == failureClassDeterministic)) with
        | false => rfl
        | true =>
            exfalso
            rw [List.any_eq_true] at h
            obtain ⟨c, hc, hcd⟩ := h
            obtain ⟨b2, hb2, hbc⟩ := List.mem_map.mp hc
            rw [← hbc, hall b2 hb2] at hcd
            exact absurd (of_decide_eq_true hcd) (by decide)
      have hall2 : (!(branches.map (fun b => b.2.failureClass)).isEmpty &&
          (branches.map (fun b => b.2.failureClass)).all
            (fun c => normalizedFailureClassOrDefault c == failureClassTransientInfra)) = true := by
        rw [Bool.and_eq_true]
        constructor
        · cases branches with
          | nil => exact absurd rfl hne
          | cons b t => rfl
        · rw [List.all_eq_true]
          intro c hc
          obtain ⟨b2, hb2, hbc⟩ := List.mem_map.mp hc
          rw [← hbc, hall b2 hb2]
          decide
      rw [if_neg (by rw [hany]; exact Bool.false_ne_true), if_pos hall2]
    · intro hbe
      subst hbe
      rfl
  · intro outcome edges nodeRetry graphRetry fallbackRetry hfail
    have hfb : (outcome == "fail" || outcome == "retry") = true := by
      rcases hfail with h | h <;> rw [h] <;> decide
    refine ⟨?_, ?_, ?_⟩
    · intro n hres
      unfold resolveNextHop at hres
      rw [hfb] at hres
      cases hfind : edges.find? (fun e =>
          match e.condition with
          | none => !(true && true)
          | some want => want == outcome) with
      | none =>
          rw [hfind] at hres
          dsimp only at hres
          cases hnr : nodeRetry with
          | some t =>
              rw [hnr] at hres
              exact NextHop.noConfusion hres
          | none =>
              rw [hnr] at hres
              dsimp only at hres
              cases hgr : graphRetry with
              | some t =>
                  rw [hgr] at hres
                  exact NextHop.noConfusion hres
              | none =>
                  rw [hgr] at hres
                  dsimp only at hres
                  cases hfr : fallbackRetry with
                  | some t =>
                      rw [hfr] at hres
                      exact NextHop.noConfusion hres
                  | none =>
                      rw [hfr] at hres
                      exact NextHop.noConfusion hres
      | some e =>
          rw [hfind] at hres
          dsimp only at hres
          cases hres
          have hpred := List.find?_some hfind
          have hmem := List.mem_of_find?_eq_some hfind
          refine ⟨e, hmem, ?_, rfl⟩
          cases hcond : e.condition with
          | none =>
              rw [hcond] at hpred
              simp at hpred
          | some want =>
              rw [hcond] at hpred
              simp only [beq_iff_eq] at hpred
              rw [hpred]
    · intro huncond hnr hgr hfr
      unfold resolveNextHop
      rw [hfb]
      have hfind : edges.find? (fun e =>
          match e.condition with
          | none => !(true && true)
          | some want => want == outcome) = none := by
        rw [List.find?_eq_none]
        intro e he
        rw [huncond e he]
        simp
      rw [hfind, hnr, hgr, hfr]
      simp
    · intro huncond t hnr
      unfold resolveNextHop
      rw [hfb]
      have hfind : edges.find? (fun e =>
          match e.condition with
          | none => !(true && true)
          | some want => want == outcome) = none := by
        rw [List.find?_eq_none]
        intro e he
        rw [huncond e he]
        simp
      rw [hfind, hnr]
      simp

/-- Closed witness for C2: three all-failed branches with mixed classes
aggregate to deterministic, and a failing fan-in with a single unconditional
edge and no retry targets terminates as fail. -/
theorem fan_in_all_fail_policy_witness :
    (aggregateAllFail [("b1", Outcome.mk Status.fail "x" "transient_infra" ""),
      ("b2", Outcome.mk Status.fail "y" "deterministic" ""),
      ("b3", Outcome.mk Status.fail "z" "transient_infra" "")]).failureClass =
        failureClassDeterministic ∧
    resolveNextHop true "fail" [REdge.mk "verify" none] none none none =
      NextHop.terminateFail := by
  constructor
  · exact (fan_in_all_fail_policy.1 _).1
      ⟨("b2", Outcome.mk Status.fail "y" "deterministic" ""), by decide, by decide⟩
  · exact (fan_in_all_fail_policy.2 "fail" [REdge.mk "verify" none] none none none
      (Or.inl rfl)).2.1 (by decide) rfl rfl rfl

/-! ## Deterministic failure cycle breaker (spec section 4.4) -/

/-- The context outcome string of a status, as edge conditions read it. -/
def statusString : Status → String
  | Status.success => "success"
  | Status.partialSuccess => "partial_success"
  | Status.retry => "retry"
  | Status.fail => "fail"
  | Status.skipped => "skipped"

/-- A traversal edge: target, optional condition, loop_restart flag. -/
structure CEdge where
  toNode : String
  condition : Option String
  loopRestart : Bool
deriving DecidableEq, Repr

/-- First edge in declared order whose condition is satisfied by the current
outcome (an unconditional edge always matches here). -/
def findEdge (outcomeStr : String) (edges : List CEdge) : Option CEdge :=
  edges.find? (fun e =>
    match e.condition with
    | none => true
    | some want => want == outcomeStr)

/-- Count recorded for a failure signature (zero when unseen). -/
def lookupCount (counts : List (String × Nat)) (sig : String) : Nat :=
  ((counts.find? (fun p => p.1 == sig)).map (fun p => p.2)).getD 0

/-- End of a traversal: normal exit with the visited trace, a cycle-breaker
abort, or fuel exhaustion (never reached in the verified runs). -/
inductive TravEnd where
  | exited (visited : List String)
  | cycleBreak (msg : String)
  | fuelOut
deriving DecidableEq, Repr

/-- Modelled from the spec: the traversal loop with the deterministic failure
cycle breaker is not among the repository files in the snapshot.  Per section
4.4, when a loop_restart=false edge would return to a previously visited node
carrying a deterministic class with an identical signature, a per-signature
counter is incremented and at the configured limit the run terminates with
"deterministic failure cycle detected". -/
def traverseLoop (outcomes : String → Outcome) (graphEdges : String → List CEdge)
    (limit : Nat) : Nat → String → List String → List (String × Nat) → TravEnd
  | 0, _, _, _ => TravEnd.fuelOut
  | fuel + 1, current, visited, counts =>
      match findEdge (statusString (outcomes current).status) (graphEdges current) with
      | none => TravEnd.exited (current :: visited)
      | some e =>
          if e.toNode ∈ visited ∧ e.loopRestart = false ∧
              normalizedFailureClassOrDefault (outcomes current).failureClass =
                failureClassDeterministic then
            if limit ≤ lookupCount counts (outcomes current).failureSignature + 1 then
              TravEnd.cycleBreak "deterministic failure cycle detected"
            else
              traverseLoop outcomes graphEdges limit fuel e.toNode (current :: visited)
                (((outcomes current).failureSignature,
                  lookupCount counts (outcomes current).failureSignature + 1) :: counts)
          else traverseLoop outcomes graphEdges limit fuel e.toNode (current :: visited) counts

/-- The cyclic graph of the regression test: implement, verify, check in a
loop with a fail-condition back-edge, every tool exiting nonzero with a
deterministic class; the conditional node preserves the upstream outcome. -/
def cycleOutcomes : String → Outcome := fun n =>
  if n = "implement" then Outcome.mk Status.fail "implement_fail" "deterministic" "tool|implement"
  else if n = "verify" then Outcome.mk Status.fail "verify_fail" "deterministic" "tool|verify"
  else if n = "check" then Outcome.mk Status.fail "verify_fail" "deterministic" "tool|verify"
  else Outcome.mk Status.success "" "" ""

/-- Edges of the cyclic test graph. -/
def cycleEdges : String → List CEdge := fun n =>
  if n = "start" then [CEdge.mk "implement" none false]
  else if n = "implement" then [CEdge.mk "verify" none false]
  else if n = "verify" then [CEdge.mk "check" none false]
  else if n = "check" then
    [CEdge.mk "implement" (some "fail") false, CEdge.mk "exit" (some "success") false]
  else []

/-- The recovery graph of the regression test: one deterministic failure
routing through a fail-condition edge to a fresh recovery node. -/
def recoveryOutcomes : String → Outcome := fun n =>
  if n = "attempt" then Outcome.mk Status.fail "exit 1" "deterministic" "tool|attempt"
  else Outcome.mk Status.success "" "" ""

/-- Edges of the recovery test graph. -/
def recoveryEdges : String → List CEdge := fun n =>
  if n = "start" then [CEdge.mk "attempt" none false]
  else if n = "attempt" then
    [CEdge.mk "recovery" (some "fail") false, CEdge.mk "exit" none false]
  else if n = "recovery" then [CEdge.mk "exit" none false]
  else []

/-- C4. Deterministic failure cycle breaker: a loop_restart=false edge back to
a visited node under a deterministic failure whose signature count has reached
the configured limit aborts the traversal with "deterministic failure cycle
detected"; the cyclic test graph so terminates instead of looping, while the
recovery graph routes its single deterministic failure to the fresh recovery
node and completes normally. -/
theorem deterministic_failure_cycle_breaker :
    (∀ (outcomes : String → Outcome) (graphEdges : String → List CEdge)
        (limit fuel : Nat) (current : String) (visited : List String)
        (counts : List (String × Nat)) (e : CEdge),
      findEdge (statusString (outcomes current).status) (graphEdges current) = some e →
      e.toNode ∈ visited → e.loopRestart = false →
      normalizedFailureClassOrDefault (outcomes current).failureClass =
        failureClassDeterministic →
      limit ≤ lookupCount counts (outcomes current).failureSignature + 1 →
      traverseLoop outcomes graphEdges limit (fuel + 1) current visited counts =
        TravEnd.cycleBreak "deterministic failure cycle detected") ∧
    traverseLoop cycleOutcomes cycleEdges 3 50 "start" [] [] =
      TravEnd.cycleBreak "deterministic failure cycle detected" ∧
    traverseLoop recoveryOutcomes recoveryEdges 3 50 "start" [] [] =
      TravEnd.exited ["exit", "recovery", "attempt", "start"] := by
  refine ⟨?_, by decide, by decide⟩
  intro outcomes graphEdges limit fuel current visited counts e hfind hmem hlr hdet hlim
  rw [traverseLoop, hfind]
  dsimp only
  rw [if_pos ⟨hmem, hlr, hdet⟩, if_pos hlim]

/-- Closed witness for C4: one concrete back-edge under a deterministic
failure at the limit aborts with the cycle-break message. -/
theorem deterministic_failure_cycle_breaker_witness :
    traverseLoop (fun _ => Outcome.mk Status.fail "r" "deterministic" "s")
      (fun _ => [CEdge.mk "n" none false]) 3 8 "n" ["n"] [("s", 2)] =
      TravEnd.cycleBreak "deterministic failure cycle detected" :=
  deterministic_failure_cycle_breaker.1
    (fun _ => Outcome.mk Status.fail "r" "deterministic" "s")
    (fun _ => [CEdge.mk "n" none false]) 3 7 "n" ["n"] [("s", 2)]
    (CEdge.mk "n" none false) (by decide) (by decide) rfl (by decide) (by decide)

/-! ## Stall watchdog (spec section 4.6), as a discrete-time transition
system: wall time, the last-progress clock, the cancellation flag, and the
engine phase (running, in a retry backoff sleep, or stopped). -/

/-- Engine phase as the watchdog sees it. -/
inductive WdPhase where
  | running
  | sleeping (wake : Nat)
  | stopped
deriving DecidableEq, Repr

/-- Watchdog-relevant run state. -/
structure WdState where
  now : Nat
  lastProgressAt : Nat
  canceled : Bool
  cause : String
  phase : WdPhase
deriving DecidableEq, Repr

/-- Observable steps: a progress event (from the main loop or forwarded from
a parallel branch), time passing, entering a retry backoff sleep, the sleep
completing, and a watchdog check (every stall_check_interval). -/
inductive WdStep where
  | progress (branch : Bool)
  | tick (dt : Nat)
  | beginSleep (d : Nat)
  | wake
  | check
deriving DecidableEq, Repr

/-- Modelled from the spec: the stall watchdog is not among the repository
files in the snapshot.  Per section 4.6, every progress event (including
forwarded branch events) resets the parent last-progress clock; a check
cancels the run with the fatal "stall watchdog timeout" cause when at least
stall_timeout has passed without progress, also interrupting a pending retry
sleep; all other steps never cancel. -/
def wdApply (stallTimeout : Nat) (st : WdState) : WdStep → WdState
  | WdStep.progress _ => if st.canceled then st else { st with lastProgressAt := st.now }
  | WdStep.tick dt => { st with now := st.now + dt }
  | WdStep.beginSleep d =>
      if st.canceled then st else { st with phase := WdPhase.sleeping (st.now + d) }
  | WdStep.wake => if st.canceled then st else { st with phase := WdPhase.running }
  | WdStep.check =>
      if st.canceled = false ∧ stallTimeout ≤ st.now - st.lastProgressAt then
        { st with
          canceled := true
          cause := "stall watchdog timeout"
          phase := WdPhase.stopped }
      else st

/-- Whether a new stage attempt may begin: cancellation is observed at every
suspension point, so a canceled run starts no further attempt. -/
def canStartAttempt (st : WdState) : Bool :=
  !st.canceled

/-- A trace in which every watchdog check happens while progress is fresh. -/
def noStaleCheck (stallTimeout : Nat) : WdState → List WdStep → Prop
  | _, [] => True
  | st, step :: rest =>
      (step = WdStep.check → st.now - st.lastProgressAt < stallTimeout) ∧
      noStaleCheck stallTimeout (wdApply stallTimeout st step) rest

/-- Any single step keeps an uncanceled run uncanceled, except a stale check. -/
theorem wdApply_preserves_uncanceled (stallTimeout : Nat) (st : WdState) (step : WdStep)
    (hc : st.canceled = false)
    (hfresh : step = WdStep.check → st.now - st.lastProgressAt < stallTimeout) :
    (wdApply stallTimeout st step).canceled = false := by
  cases step with
  | progress b =>
      rw [wdApply, if_neg (by rw [hc]; exact Bool.false_ne_true)]
      exact hc
  | tick dt => exact hc
  | beginSleep d =>
      rw [wdApply, if_neg (by rw [hc]; exact Bool.false_ne_true)]
      exact hc
  | wake =>
      rw [wdApply, if_neg (by rw [hc]; exact Bool.false_ne_true)]
      exact hc
  | check =>
      rw [wdApply, if_neg ?_]
      · exact hc
      · rintro ⟨-, hstale⟩
        exact absurd hstale (by have := hfresh rfl; omega)

/-- C3. Stall watchdog contract: a check after at least stall_timeout without
progress cancels the run with a fatal cause containing "stall watchdog"; a
firing check during a retry backoff sleep stops the run at the current time,
before the wake deadline, and no further attempt can start, with cancellation
permanent over any continuation; and any progress event, including a
forwarded branch event, resets the parent liveness clock, so a trace whose
checks all see fresh progress is never canceled. -/
theorem stall_watchdog_contract (stallTimeout : Nat) :
    (∀ st : WdState, st.canceled = false → stallTimeout ≤ st.now - st.lastProgressAt →
      (wdApply stallTimeout st WdStep.check).canceled = true ∧
        (wdApply stallTimeout st WdStep.check).cause = "stall watchdog timeout" ∧
        containsSub "stall watchdog".data "stall watchdog timeout".data = true) ∧
    (∀ (st : WdState) (wake : Nat), st.canceled = false →
      st.phase = WdPhase.sleeping wake →
      stallTimeout ≤ st.now - st.lastProgressAt →
      (wdApply stallTimeout st WdStep.check).phase = WdPhase.stopped ∧
        (wdApply stallTimeout st WdStep.check).now = st.now ∧
        canStartAttempt (wdApply stallTimeout st WdStep.check) = false) ∧
    (∀ (st : WdState) (steps : List WdStep), st.canceled = true →
      (steps.foldl (wdApply stallTimeout) st).canceled = true) ∧
    (∀ (st : WdState) (b : Bool), st.canceled = false →
      (wdApply stallTimeout st (WdStep.progress b)).lastProgressAt = st.now) ∧
    (∀ (st : WdState) (steps : List WdStep), st.canceled = false →
      noStaleCheck stallTimeout st steps →
      (steps.foldl (wdApply stallTimeout) st).canceled = false) := by
  refine ⟨?_, ?_, ?_, ?_, ?_⟩
  · intro st hc hstale
    rw [wdApply, if_pos ⟨hc, hstale⟩]
    exact ⟨rfl, rfl, by decide⟩
  · intro st wake hc hphase hstale
    rw [wdApply, if_pos ⟨hc, hstale⟩]
    refine ⟨rfl, rfl, ?_⟩
    rw [canStartAttempt]
    rfl
  · intro st steps
    induction steps generalizing st with
    | nil => intro hc; exact hc
    | cons step rest ih =>
        intro hc
        rw [List.foldl_cons]
        apply ih
        cases step with
        | progress b => rw [wdApply, if_pos hc]; exact hc
        | tick dt => exact hc
        | beginSleep d => rw [wdApply, if_pos hc]; exact hc
        | wake => rw [wdApply, if_pos hc]; exact hc
        | check =>
            rw [wdApply, if_neg ?_]
            · exact hc
            · rintro ⟨hfalse, -⟩
              rw [hc] at hfalse
              exact Bool.noConfusion hfalse
  · intro st b hc
    rw [wdApply, if_neg (by rw [hc]; exact Bool.false_ne_true)]
  · intro st steps
    induction steps generalizing st with
    | nil => intro hc _; exact hc
    | cons step rest ih =>
        intro hc hns
        rw [List.foldl_cons]
        exact ih _ (wdApply_preserves_uncanceled stallTimeout st step hc hns.1) hns.2

/-- Closed witness for C3: a concrete stalled check during a retry sleep
stops the run immediately, and a fresh branch progress event resets the
liveness clock. -/
theorem stall_watchdog_contract_witness :
    (wdApply 5 ⟨100, 0, false, "", WdPhase.sleeping 600⟩ WdStep.check).phase =
      WdPhase.stopped ∧
    (wdApply 5 ⟨100, 98, false, "", WdPhase.running⟩ (WdStep.progress true)).lastProgressAt =
      100 := by
  constructor
  · exact ((stall_watchdog_contract 5).2.1 ⟨100, 0, false, "", WdPhase.sleeping 600⟩ 600
      rfl rfl (by decide)).1
  · exact (stall_watchdog_contract 5).2.2.2.1 ⟨100, 98, false, "", WdPhase.running⟩ true rfl

/-! ## Stop safety (CLI stop command, spec section 6.1) -/

/-- A recorded process identity: pid and the start time captured when the pid
was recorded (when known). -/
structure VerifiedProcess where
  pid : Nat
  startTime : Nat
  startTimeKnown : Bool
deriving DecidableEq, Repr

/-- Modelled from the spec: verifyProcessIdentity is not among the repository
files in the snapshot (only its test).  A known recorded start time must match
the live process start time, otherwise the pid has been reused. -/
def verifyProcessIdentity (readStart : Nat → Option Nat) (vp : VerifiedProcess) :
    Except String Unit :=
  if vp.startTimeKnown then
    match readStart vp.pid with
    | none => Except.error "process not found"
    | some cur =>
        if cur = vp.startTime then Except.ok ()
        else Except.error "process start time changed"
  else Except.ok ()

/-- Whether the argv carries a flag followed by the expected value. -/
def argvHasFlagValue : List String → String → String → Bool
  | [], _, _ => false
  | [_], _, _ => false
  | a :: b :: rest, flag, val =>
      (a == flag && b == val) || argvHasFlagValue (b :: rest) flag val

/-- Whether the argv belongs to an attractor invocation at all. -/
def argvHasAttractorMarker (argv : List String) : Bool :=
  argv.any (fun a => containsSub "attractor".data a.data)

/-- Result of the stop command: the pid signaled, if any, the exit code, and
the printed message. -/
structure StopResult where
  signaled : Option Nat
  exitCode : Nat
  message : String
deriving DecidableEq, Repr

/-- Modelled from the spec: the stop command is not among the repository files
in the snapshot (only its tests).  Per section 6.1 and the stop tests, the
command refuses when the run is already terminal per final.json, when run.pid
is missing, when the target process is gone or its argv lacks the attractor
identity (marker plus a matching --logs-root or --run-id), and when the
recorded start time no longer matches; only after all checks does it signal. -/
def attractorStop (snapshotState : RunState) (pidFromFile : Option Nat)
    (argvOf : Nat → Option (List String)) (readStart : Nat → Option Nat)
    (recordedStart : Nat) (startKnown : Bool) (logsRoot runID : String) : StopResult :=
  if snapshotState = RunState.success ∨ snapshotState = RunState.fail then
    ⟨none, 1, "run state is terminal"⟩
  else
    match pidFromFile with
    | none => ⟨none, 1, "no run.pid"⟩
    | some pid =>
        match argvOf pid with
        | none => ⟨none, 1, "process not found"⟩
        | some argv =>
            if argvHasAttractorMarker argv = false then
              ⟨none, 1, "refusing to signal pid: not an attractor process"⟩
            else if (argvHasFlagValue argv "--logs-root" logsRoot ||
                argvHasFlagValue argv "--run-id" runID) = false then
              ⟨none, 1, "refusing to signal pid: no --logs-root/--run-id identity"⟩
            else
              match verifyProcessIdentity readStart ⟨pid, recordedStart, startKnown⟩ with
              | Except.error m => ⟨none, 1, m⟩
              | Except.ok _ => ⟨some pid, 0, "stopped"⟩

/-- C6. Stop safety: a signal is sent only to the pid from run.pid after the
full identity check — the run is not terminal, the process exists, its argv
carries the attractor marker and a matching --logs-root or --run-id, and a
known recorded start time matches the live process; each refusal case — a
non-attractor process, missing identity flags, a changed start time, or an
already terminal run — exits nonzero with no signal sent. -/
theorem stop_safety :
    (∀ (snapshotState : RunState) (pidFromFile : Option Nat)
        (argvOf : Nat → Option (List String)) (readStart : Nat → Option Nat)
        (recordedStart : Nat) (startKnown : Bool) (logsRoot runID : String) (p : Nat),
      (attractorStop snapshotState pidFromFile argvOf readStart recordedStart startKnown
          logsRoot runID).signaled = some p →
      ∃ argv, pidFromFile = some p ∧ argvOf p = some argv ∧
        argvHasAttractorMarker argv = true ∧
        (argvHasFlagValue argv "--logs-root" logsRoot = true ∨
          argvHasFlagValue argv "--run-id" runID = true) ∧
        (startKnown = true → readStart p = some recordedStart) ∧
        snapshotState ≠ RunState.success ∧ snapshotState ≠ RunState.fail) ∧
    (∀ (snapshotState : RunState) (pidFromFile : Option Nat)
        (argvOf : Nat → Option (List String)) (readStart : Nat → Option Nat)
        (recordedStart : Nat) (startKnown : Bool) (logsRoot runID : String),
      (snapshotState = RunState.success ∨ snapshotState = RunState.fail) →
      (attractorStop snapshotState pidFromFile argvOf readStart recordedStart startKnown
          logsRoot runID).signaled = none ∧
        (attractorStop snapshotState pidFromFile argvOf readStart recordedStart startKnown
          logsRoot runID).exitCode ≠ 0) ∧
    (∀ (snapshotState : RunState) (pid : Nat)
        (argvOf : Nat → Option (List String)) (readStart : Nat → Option Nat)
        (recordedStart : Nat) (startKnown : Bool) (logsRoot runID : String)
        (argv : List String),
      ¬(snapshotState = RunState.success ∨ snapshotState = RunState.fail) →
      argvOf pid = some argv →
      argvHasAttractorMarker argv = false →
      (attractorStop snapshotState (some pid) argvOf readStart recordedStart startKnown
          logsRoot runID).signaled = none ∧
        (attractorStop snapshotState (some pid) argvOf readStart recordedStart startKnown
          logsRoot runID).exitCode ≠ 0) ∧
    (∀ (snapshotState : RunState) (pid : Nat)
        (argvOf : Nat → Option (List String)) (readStart : Nat → Option Nat)
        (recordedStart : Nat) (startKnown : Bool) (logsRoot runID : String)
        (argv : List String),
      ¬(snapshotState = RunState.success ∨ snapshotState = RunState.fail) →
      argvOf pid = some argv →
      argvHasAttractorMarker argv = true →
      (argvHasFlagValue argv "--logs-root" logsRoot ||
        argvHasFlagValue argv "--run-id" runID) = false →
      (attractorStop snapshotState (some pid) argvOf readStart recordedStart startKnown
          logsRoot runID).signaled = none ∧
        (attractorStop snapshotState (some pid) argvOf readStart recordedStart startKnown
          logsRoot runID).exitCode ≠ 0) ∧
    (∀ (snapshotState : RunState) (pid : Nat)
        (argvOf : Nat → Option (List String)) (readStart : Nat → Option Nat)
        (recordedStart cur : Nat) (logsRoot runID : String) (argv : List String),
      ¬(snapshotState = RunState.success ∨ snapshotState = RunState.fail) →
      argvOf pid = some argv →
      argvHasAttractorMarker argv = true →
      (argvHasFlagValue argv "--logs-root" logsRoot ||
        argvHasFlagValue argv "--run-id" runID) = true →
      readStart pid = some cur → cur ≠ recordedStart →
      (attractorStop snapshotState (some pid) argvOf readStart recordedStart true
          logsRoot runID).signaled = none ∧
        (attractorStop snapshotState (some pid) argvOf readStart recordedStart true
          logsRoot runID).exitCode ≠ 0) := by
  refine ⟨?_, ?_, ?_, ?_, ?_⟩
  · intro snapshotState pidFromFile argvOf readStart recordedStart startKnown logsRoot
      runID p hsig
    unfold attractorStop at hsig
    by_cases hterm : snapshotState = RunState.success ∨ snapshotState = RunState.fail
    · rw [if_pos hterm] at hsig
      exact Option.noConfusion hsig
    · rw [if_neg hterm] at hsig
      push_neg at hterm
      cases hpid : pidFromFile with
      | none =>
          rw [hpid] at hsig
          exact Option.noConfusion hsig
      | some pid =>
          rw [hpid] at hsig
          dsimp only at hsig
          cases hargv : argvOf pid with
          | none =>
              rw [hargv] at hsig
              exact Option.noConfusion hsig
          | some argv =>
              rw [hargv] at hsig
              dsimp only at hsig
              by_cases hmark : argvHasAttractorMarker argv = false
              · rw [if_pos hmark] at hsig
                exact Option.noConfusion hsig
              · rw [if_neg hmark] at hsig
                by_cases hflags : (argvHasFlagValue argv "--logs-root" logsRoot ||
                    argvHasFlagValue argv "--run-id" runID) = false
                · rw [if_pos hflags] at hsig
                  exact Option.noConfusion hsig
                · rw [if_neg hflags] at hsig
                  cases hver : verifyProcessIdentity readStart
                      ⟨pid, recordedStart, startKnown⟩ with
                  | error m =>
                      rw [hver] at hsig
                      exact Option.noConfusion hsig
                  | ok u =>
                      rw [hver] at hsig
                      dsimp only at hsig
                      have hp : pid = p := Option.some.inj hsig
                      subst hp
                      refine ⟨argv, rfl, hargv,
                        Bool.of_not_eq_false hmark,
                        Bool.or_eq_true_iff.mp (Bool.of_not_eq_false hflags), ?_,
                        hterm.1, hterm.2⟩
                      intro hsk
                      unfold verifyProcessIdentity at hver
                      rw [hsk] at hver
                      rw [if_pos rfl] at hver
                      cases hrs : readStart pid with
                      | none =>
                          rw [hrs] at hver
                          exact Except.noConfusion hver
                      | some cur =>
                          rw [hrs] at hver
                          dsimp only at hver
                          by_cases hcur : cur = recordedStart
                          · exact congrArg some hcur
                          · rw [if_neg hcur] at hver
                            exact Except.noConfusion hver
  · intro snapshotState pidFromFile argvOf readStart recordedStart startKnown logsRoot
      runID hterm
    unfold attractorStop
    rw [if_pos hterm]
    exact ⟨rfl, by decide⟩
  · intro snapshotState pid argvOf readStart recordedStart startKnown logsRoot runID argv
      hterm hargv hmark
    unfold attractorStop
    rw [if_neg hterm]
    dsimp only
    rw [hargv]
    dsimp only
    rw [if_pos hmark]
    exact ⟨rfl, by decide⟩
  · intro snapshotState pid argvOf readStart recordedStart startKnown logsRoot runID argv
      hterm hargv hmark hflags
    unfold attractorStop
    rw [if_neg hterm]
    dsimp only
    rw [hargv]
    dsimp only
    rw [if_neg (by simp [hmark]), if_pos hflags]
    exact ⟨rfl, by decide⟩
  · intro snapshotState pid argvOf readStart recordedStart cur logsRoot runID argv
      hterm hargv hmark hflags hrs hne
    unfold attractorStop
    rw [if_neg hterm]
    dsimp only
    rw [hargv]
    dsimp only
    rw [if_neg (by simp [hmark]), if_neg (by simp [hflags])]
    have hver : verifyProcessIdentity readStart ⟨pid, recordedStart, true⟩ =
        Except.error "process start time changed" := by
      unfold verifyProcessIdentity
      rw [if_pos rfl, hrs]
      dsimp only
      rw [if_neg hne]
    rw [hver]
    exact ⟨rfl, by dsimp only; decide⟩

/-- Closed witness for C6: a sleep process, an already-successful run, and a
pid whose start time changed are all refused without a signal. -/
theorem stop_safety_witness :
    (attractorStop RunState.running (some 7) (fun _ => some ["sleep", "60"])
      (fun _ => some 5) 5 true "/logs" "r1").signaled = none ∧
    (attractorStop RunState.success (some 7) (fun _ => some ["kilroy", "attractor", "run"])
      (fun _ => some 5) 5 true "/logs" "r1").signaled = none ∧
    (attractorStop RunState.running (some 7)
      (fun _ => some ["kilroy", "attractor", "run", "--logs-root", "/logs"])
      (fun _ => some 7) 8 true "/logs" "r1").signaled = none := by
  refine ⟨?_, ?_, ?_⟩
  · exact (stop_safety.2.2.1 RunState.running 7 (fun _ => some ["sleep", "60"])
      (fun _ => some 5) 5 true "/logs" "r1" ["sleep", "60"] (by decide) rfl (by decide)).1
  · exact (stop_safety.2.1 RunState.success (some 7)
      (fun _ => some ["kilroy", "attractor", "run"]) (fun _ => some 5) 5 true "/logs" "r1"
      (Or.inl rfl)).1
  · exact (stop_safety.2.2.2.2 RunState.running 7
      (fun _ => some ["kilroy", "attractor", "run", "--logs-root", "/logs"]) (fun _ => some 7)
      8 7 "/logs" "r1" ["kilroy", "attractor", "run", "--logs-root", "/logs"]
      (by decide) rfl (by decide) (by decide) rfl (by decide)).1

end Kilroy
